import Mathlib

/-!
Verification development for the batyr screenplay typesetter.

The Rust sources embedded here are `src/document.rs`,
`src/document/reader.rs`, `src/document/formatter.rs` and
`src/text/parser.rs`.  The crate's `text` module root (the `tokens`
submodule and the line-level helpers `next_word_fits`, `count_lines`,
`linebreak_fill`, `Line`, `Segment`) is not among the sources, so those
parts are modelled from the specification; each such definition is
marked `Modelled from the spec:` in its doc comment.
-/

namespace Batyr

/-- Modelled from the spec: format flags attached to every token.  The
`text::tokens` module is missing from the sources; spec section 3 lists
the flag set as FS (full stop), EOS (end of sentence), DLB
(discretionary line break), DOB (discardable on break), MLB (mandatory
line break). -/
structure FormatFlags where
  fs : Bool := false
  eos : Bool := false
  dlb : Bool := false
  dob : Bool := false
  mlb : Bool := false
deriving DecidableEq

/-- Modelled from the spec: display flags (style bits, e.g. emphasis);
the `text::tokens` module is missing from the sources. -/
structure DisplayFlags where
  em : Bool := false
deriving DecidableEq

/-- Modelled from the spec: the token variant tags of the missing
`text::tokens` module; spec section 3 lists the variants
Word, Space, Punct, Open, Close, Symbol, LineBreak. -/
inductive TokKind where
  | Word
  | Space
  | Punct
  | Open
  | Close
  | Symbol
  | LineBreak
deriving DecidableEq

/-- Modelled from the spec: a token of the missing `text::tokens`
module carries its literal text, display flags and format flags. -/
structure Tok where
  kind : TokKind
  text : String
  dpy : DisplayFlags := {}
  frm : FormatFlags := {}
deriving DecidableEq

/-- Modelled from the spec: a token's length is the count of characters
it contributes (a LineBreak contributes none, its text is empty). -/
def Tok.length (t : Tok) : Nat := t.text.length

/-- Helper: a Word token with default flags. -/
def wordTok (s : String) : Tok := { kind := TokKind.Word, text := s }

/-- Modelled from the spec: `Token::from(usize)` (used by the reader to
prepend the indent) builds a Space token of the given width. -/
def spaceTokOfWidth (n : Nat) : Tok :=
  { kind := TokKind.Space, text := String.mk (List.replicate n ' ') }

/-- Helper: a single-space Space token carrying DLB and DOB, as the
tokenizer emits them. -/
def spaceTok : Tok :=
  { kind := TokKind.Space, text := " ", frm := { dlb := true, dob := true } }

/-- Helper: a LineBreak token with MLB, as appended for `<br/>`
children of text elements (`State::resume_text_element`). -/
def lineBreakTok : Tok :=
  { kind := TokKind.LineBreak, text := "", frm := { mlb := true } }

/-- Sum of the lengths of the tokens of one filled line. -/
def lineLen (l : List Tok) : Nat := (l.map Tok.length).sum

/-- Sum of the lengths of the consecutive non-space tokens at the head
of the list (the "word run" of the next-word-fits predicate). -/
def wordRunLen : List Tok → Nat
  | [] => 0
  | t :: ts => if t.kind = TokKind.Space then 0 else t.length + wordRunLen ts

/-- Modelled from the spec: `text::next_word_fits(tokens, w, i, x)` is
missing from the sources.  Spec section 4.3: scanning forward from
position i+1 through tokens that are Space, Open, or Close (ignoring
them), sum the lengths of the following consecutive non-space tokens
plus any leading openers; the run fits iff x + sum is at most w.  Here
the argument list is the suffix of the token list after position i. -/
def next_word_fits (w x : Nat) : List Tok → Bool
  | [] => decide (x ≤ w)
  | t :: ts =>
    match t.kind with
    | TokKind.Space => next_word_fits w x ts
    | TokKind.Close => next_word_fits w x ts
    | TokKind.Open => decide (x + t.length + wordRunLen ts ≤ w)
    | _ => decide (x + t.length + wordRunLen ts ≤ w)

/-- Modelled from the spec: the greedy fill loop of the missing
`text::linebreak_fill` (spec section 4.4): emit tokens left to right;
at a token with MLB finish the current line; at a token with DLB
(spaces and hyphens), if the next word run does not fit, finish the
current line, discarding the token iff it has DOB (a non-discardable
hyphen stays at the end of the finished line).  `acc` is the line under
construction and `done` the finished lines. -/
def fillGo (w : Nat) : List Tok → List Tok → List (List Tok) → List (List Tok)
  | [], acc, done => done ++ [acc]
  | t :: ts, acc, done =>
    if t.frm.mlb then
      fillGo w ts [] (done ++ [acc])
    else if t.frm.dlb then
      if next_word_fits w (lineLen acc) ts then
        fillGo w ts (acc ++ [t]) done
      else if t.frm.dob then
        fillGo w ts [] (done ++ [acc])
      else
        fillGo w ts [] (done ++ [acc ++ [t]])
    else
      fillGo w ts (acc ++ [t]) done

/-- Modelled from the spec: the lines produced by greedy fill, as bare
token runs (before segment merging). -/
def fillRuns (toks : List Tok) (w : Nat) : List (List Tok) :=
  fillGo w toks [] []

/-- Candidate break point (`BreakPoint` in `document.rs`). -/
structure BreakPoint where
  token_index : Nat
  discard_flag : Bool
  line_no : Nat
deriving DecidableEq

/-- Break options (`BreakType` in `document.rs`). -/
inductive BreakType where
  | None
  | Mandatory
  | Forbidden (h : Nat)
  | Atomic (h : Nat)
  | Disposable (h : Nat)
  | Point (bp : BreakPoint)
  | List (bps : List BreakPoint)
deriving DecidableEq

/-- Scene number setting (`Numbering` in `document.rs`). -/
inductive Numbering where
  | None
  | Left
  | Right
  | Full
deriving DecidableEq

/-- Loop of `State::find_break_points` (`reader.rs`), structurally
recursive over the remaining tokens; `i` is the index of the next
token, `n` the line count, `x` the char count, `atEos` the
at-end-of-sentence flag.  After the loop the source increments `n` when
`x >= line_length` and pushes the sentinel break at the token count. -/
def fbpGo (w : Nat) : List Tok → Nat → Nat → Nat → Bool → List BreakPoint
  | [], i, n, x, _ =>
    [⟨i, false, if w ≤ x then n + 1 else n⟩]
  | t :: ts, i, n, x, atEos =>
    let atEos1 := if t.kind = TokKind.Punct then false else atEos
    if t.frm.mlb then
      ⟨i + 1, true, n⟩ :: fbpGo w ts (i + 1) (n + 1) 0 false
    else if t.frm.eos && !t.frm.dlb then
      fbpGo w ts (i + 1) n (x + t.length) true
    else if t.frm.dlb then
      let pushed := atEos1 || t.frm.eos
      let atEos2 := if pushed then false else atEos1
      let rest :=
        if next_word_fits w x ts then
          fbpGo w ts (i + 1) n (x + t.length) atEos2
        else
          fbpGo w ts (i + 1) (n + 1) 0 atEos2
      if pushed then ⟨i + 1, t.frm.dob, n⟩ :: rest else rest
    else
      fbpGo w ts (i + 1) n (x + t.length) atEos1

/-- `State::find_break_points` (`reader.rs`): line count starts at 1,
char count at 0, not at end of sentence. -/
def find_break_points (toks : List Tok) (w : Nat) : List BreakPoint :=
  fbpGo w toks 0 1 0 false

/-- First half of `State::trim_whitespace` (`reader.rs`): remove the
first token if it is a Space. -/
def trimFront (toks : List Tok) : List Tok :=
  match toks with
  | t :: rest => if t.kind = TokKind.Space then rest else toks
  | [] => []

/-- Second half of `State::trim_whitespace` (`reader.rs`): remove the
last token if it is a Space. -/
def trimBack (toks : List Tok) : List Tok :=
  match toks.getLast? with
  | some t => if t.kind = TokKind.Space then toks.dropLast else toks
  | none => toks

/-- `State::trim_whitespace` (`reader.rs`): remove the first token if
it is a Space, then remove the (new) last token if it is a Space. -/
def trim_whitespace (toks : List Tok) : List Tok :=
  trimBack (trimFront toks)

/-- `State::remove_leading_eos` (`reader.rs`): if the first token is a
Punct, remove its EOS format flag (only EOS; the FS flag is kept). -/
def remove_leading_eos : List Tok → List Tok
  | t :: rest =>
    if t.kind = TokKind.Punct then
      { t with frm := { t.frm with eos := false } } :: rest
    else
      t :: rest
  | [] => []

/-- Attributes of a `d` element (`D` in `document.rs`); the `p`
attributes (`P`) have the same five fields. -/
structure DAttrs where
  indent : Nat
  left_margin : Nat
  right_margin : Nat
  padding_before : Int
  padding_after : Nat
deriving DecidableEq

/-- Generic text element (`TextElement` in `document.rs`). -/
structure TextElement (A : Type) where
  attributes : A
  tokens : List Tok
  break_info : BreakType := BreakType.None
  at_scene_end : Bool := false
deriving DecidableEq

/-- Finalization of a `d` element on close (`State::on_exit`, `State::D`
branch in `reader.rs`): trim whitespace, remove the leading EOS, prepend
the indent Space when positive, then compute the break descriptor from
`find_break_points` at width `right_margin - left_margin + 1`.  The
`State::P` branch is textually identical (only the default margins
differ), so the theorems below cover both `d` and `p`.  A singleton
break list (only the sentinel) yields `Atomic`, a longer one `List`. -/
def breakInfoOfList (b : List BreakPoint) (dflt : BreakType) : BreakType :=
  match b with
  | [bp] => BreakType.Atomic bp.line_no
  | _ :: _ :: _ => BreakType.List b
  | [] => dflt

/-- Finalization of a `d` element on close (`State::on_exit`, `State::D`
branch in `reader.rs`): trim whitespace, remove the leading EOS, prepend
the indent Space when positive, then compute the break descriptor from
`find_break_points` at width `right_margin - left_margin + 1`. -/
def finalizeD (e : TextElement DAttrs) : TextElement DAttrs :=
  let toks0 := remove_leading_eos (trim_whitespace e.tokens)
  let toks :=
    if 0 < e.attributes.indent then
      spaceTokOfWidth e.attributes.indent :: toks0
    else
      toks0
  let w := e.attributes.right_margin - e.attributes.left_margin + 1
  { e with tokens := toks,
           break_info := breakInfoOfList (find_break_points toks w) e.break_info }

/-- Attributes of a `cue` element (`Cue` in `document.rs`). -/
structure CueAttrs where
  tab_stop : Nat
  train : List BreakType
  padding_before : Int
  padding_after : Nat
deriving DecidableEq

/-- Loop of `TextElement::<Cue>::count_lines` (`document.rs`), folding
the train into the running line count; indexing the last entry of a
`List` of break points panics on an empty list, modelled by `none`. -/
def countLinesGo : List BreakType → Nat → Option Nat
  | [], acc => some acc
  | bt :: rest, acc =>
    match bt with
    | BreakType.None => countLinesGo rest acc
    | BreakType.Mandatory => countLinesGo rest acc
    | BreakType.Forbidden h => countLinesGo rest (acc + h)
    | BreakType.Atomic h => countLinesGo rest (acc + h)
    | BreakType.Disposable h => countLinesGo rest (acc + h)
    | BreakType.Point bp => countLinesGo rest (acc + bp.line_no)
    | BreakType.List bps =>
      match bps.getLast? with
      | some bp => countLinesGo rest (acc + bp.line_no)
      | none => none

/-- `TextElement::<Cue>::count_lines` (`document.rs`): 1 for the cue
line plus the heights of the train members. -/
def TextElement.count_lines (e : TextElement CueAttrs) : Option Nat :=
  countLinesGo e.attributes.train 1

/-- Inner loop of the `BreakType::List` arm of
`TextElement::<Cue>::select_break` (`document.rs`): walk the break
points of the list; `Sum.inl` is an early return out of the whole
function, `Sum.inr` carries the updated previous-viable pair. -/
def sbInner (r : Int) (lc : Nat) (i : Int) :
    List BreakPoint → Int → BreakType →
    Sum (Int × BreakType) (Int × BreakType)
  | [], prevIdx, prevInfo => Sum.inr (prevIdx, prevInfo)
  | bp :: rest, prevIdx, prevInfo =>
    if r < ((lc + bp.line_no + 1 : Nat) : Int) then
      if prevInfo = BreakType.None ∨ prevIdx < 0 then
        Sum.inl (-1, BreakType.None)
      else
        Sum.inl (prevIdx, prevInfo)
    else
      sbInner r lc i rest i (BreakType.Point bp)

/-- Main loop of `TextElement::<Cue>::select_break` (`document.rs`):
walk the train keeping the last viable pair; `n` is the train length
(so `i = n - 1` is the last entry), `lc` the running line count (the
`Point` arm does not increase it, exactly as in the source); an
out-of-bounds index (empty `List` of break points) is modelled by
`none`. -/
def sbLoop (r : Int) (n : Nat) :
    List BreakType → Nat → Nat → Int → BreakType →
    Option (Int × BreakType)
  | [], _, _, _, _ => some (-1, BreakType.None)
  | bt :: rest, i, lc, prevIdx, prevInfo =>
    match bt with
    | BreakType.None => sbLoop r n rest (i + 1) lc prevIdx prevInfo
    | BreakType.Mandatory => some ((i : Int), BreakType.Mandatory)
    | BreakType.Forbidden h =>
      if (if i = n - 1 then r < ((lc + h : Nat) : Int)
          else r < ((lc + h + 1 : Nat) : Int)) then
        some (prevIdx, prevInfo)
      else
        sbLoop r n rest (i + 1) (lc + h) prevIdx prevInfo
    | BreakType.Atomic h =>
      if (if i = n - 1 then r < ((lc + h : Nat) : Int)
          else r < ((lc + h + 1 : Nat) : Int)) then
        some (prevIdx, prevInfo)
      else
        sbLoop r n rest (i + 1) (lc + h) (i : Int) (BreakType.Atomic h)
    | BreakType.Disposable h =>
      if (if i = n - 1 then r < ((lc + h : Nat) : Int)
          else r < ((lc + h + 1 : Nat) : Int)) then
        some (prevIdx, prevInfo)
      else
        sbLoop r n rest (i + 1) (lc + h) (i : Int) (BreakType.Disposable h)
    | BreakType.Point bp =>
      if (if i = n - 1 then r < ((lc + bp.line_no : Nat) : Int)
          else r < ((lc + bp.line_no + 1 : Nat) : Int)) then
        some (prevIdx, prevInfo)
      else
        sbLoop r n rest (i + 1) lc (i : Int) (BreakType.Point bp)
    | BreakType.List bps =>
      match sbInner r lc (i : Int) bps prevIdx prevInfo with
      | Sum.inl res => some res
      | Sum.inr (prevIdx1, prevInfo1) =>
        match bps.getLast? with
        | some bp => sbLoop r n rest (i + 1) (lc + bp.line_no) prevIdx1 prevInfo1
        | none => none

/-- `TextElement::<Cue>::select_break` (`document.rs`): below two lines
remaining, never orphan the cue; when the whole dialogue fits, break
after the whole train; otherwise walk the train for the last viable
break. -/
def TextElement.select_break (e : TextElement CueAttrs) (r : Int) :
    Option (Int × BreakType) :=
  if r < 2 then
    some (-1, BreakType.None)
  else
    match e.count_lines with
    | none => none
    | some total =>
      let n := e.attributes.train.length
      if (total : Int) ≤ r then
        some ((n : Int), BreakType.None)
      else
        sbLoop r n e.attributes.train 0 1 (-1) BreakType.None

/-- Scene-number assignment of one `slug` start tag (`Reader::run`,
`Event::Start b"slug"` branch in `reader.rs`): with an explicit
`number` attribute `n` the slug gets `n` and the counter becomes
`n + 1`; without one the slug gets the running counter, which is then
incremented.  Returns (assigned number, new counter). -/
def slugNumberStep (next_scene_no : Int) (attr : Option Int) : Int × Int :=
  match attr with
  | some n => (n, n + 1)
  | none => (next_scene_no, next_scene_no + 1)

/-- Numbers assigned to a sequence of slugs given the starting counter,
by iterating `slugNumberStep` over their `number` attributes. -/
def assignSceneNumbers : Int → List (Option Int) → List Int
  | _, [] => []
  | c, a :: rest =>
    let p := slugNumberStep c a
    p.1 :: assignSceneNumbers p.2 rest

/-- Numbers the reader assigns to the slugs of a document, in order;
`Reader::new` starts `next_scene_no` at 1. -/
def readerSceneNumbers (attrs : List (Option Int)) : List Int :=
  assignSceneNumbers 1 attrs

/-- Tags of the body children relevant to `mark_scene_endings`
(`reader.rs`); the element variants are those that can appear in a
`body`. -/
inductive Tag where
  | Act
  | Cue
  | D
  | Dir
  | Em
  | End
  | FullName
  | Open
  | P
  | Series
  | Slug
  | Title
  | Trans
  | Br
  | PageBreak
deriving DecidableEq

/-- Body child as seen by `mark_scene_endings`: its tag and its
`at_scene_end` flag. -/
structure BodyElem where
  tag : Tag
  at_scene_end : Bool := false
deriving DecidableEq

/-- The Rust inclusive range `a ..= b` as the ascending list of indices
it iterates; empty when `a > b`.  `mark_scene_endings` writes
`for j in i - 1 ..= 0`, which is empty whenever `i - 1 > 0`. -/
def rustRangeIncl (a b : Nat) : List Nat :=
  if a ≤ b then List.range' a (b - a + 1) else []

/-- Inner loop of the first pass of `mark_scene_endings` (`reader.rs`):
walk the index list; at a text element (every variant except `Br` and
`PageBreak` among body children) set `at_scene_end` and break, at the
others continue. -/
def markFirstLoop (cs : List BodyElem) : List Nat → List BodyElem
  | [] => cs
  | j :: rest =>
    match cs.get? j with
    | some e =>
      match e.tag with
      | Tag.Br => markFirstLoop cs rest
      | Tag.PageBreak => markFirstLoop cs rest
      | _ => cs.set j { e with at_scene_end := true }
    | none => markFirstLoop cs rest

/-- Inner loop of the D/Dir propagation of `mark_scene_endings`
(`reader.rs`): at a `Cue` mark and break, at `D`/`Dir` continue, at
anything else break. -/
def propagateCueLoop (cs : List BodyElem) : List Nat → List BodyElem
  | [] => cs
  | j :: rest =>
    match cs.get? j with
    | some e =>
      match e.tag with
      | Tag.Cue => cs.set j { e with at_scene_end := true }
      | Tag.D => propagateCueLoop cs rest
      | Tag.Dir => propagateCueLoop cs rest
      | _ => cs
    | none => cs

/-- First pass of `mark_scene_endings` (`reader.rs`): for each `Slug`
at position `i` (for `i in 1..n`), run the inner loop over the indices
of the Rust range `i - 1 ..= 0`. -/
def markSceneEndingsPass1 (children : List BodyElem) : List BodyElem :=
  (List.range' 1 (children.length - 1)).foldl
    (fun cs i =>
      match cs.get? i with
      | some e => if e.tag = Tag.Slug then markFirstLoop cs (rustRangeIncl (i - 1) 0) else cs
      | none => cs)
    children

/-- Second pass of `mark_scene_endings` (`reader.rs`): propagate the
flag of a `D`/`Dir` to the preceding `Cue` over the Rust range
`i - 1 ..= 0`, and the flag of a `P` to an immediately preceding
`Slug`. -/
def markSceneEndingsPass2 (children : List BodyElem) : List BodyElem :=
  (List.range' 1 (children.length - 1)).foldl
    (fun cs i =>
      match cs.get? i with
      | some e =>
        match e.tag with
        | Tag.D =>
          if e.at_scene_end then propagateCueLoop cs (rustRangeIncl (i - 1) 0) else cs
        | Tag.Dir =>
          if e.at_scene_end then propagateCueLoop cs (rustRangeIncl (i - 1) 0) else cs
        | Tag.P =>
          if e.at_scene_end then
            match cs.get? (i - 1) with
            | some pe =>
              if pe.tag = Tag.Slug then cs.set (i - 1) { pe with at_scene_end := true } else cs
            | none => cs
          else cs
        | _ => cs
      | none => cs)
    children

/-- `mark_scene_endings` (`reader.rs`): the marking pass followed by
the propagation pass. -/
def mark_scene_endings (children : List BodyElem) : List BodyElem :=
  markSceneEndingsPass2 (markSceneEndingsPass1 children)

/-- State data shared by all tokenizer states (`State<Data>` in
`text/parser.rs`): the token accumulator, the word counter and the
display and format flags. -/
structure PCore where
  tokens : List Tok
  word_count : Nat
  dpy : DisplayFlags
  frm : FormatFlags
deriving DecidableEq

/-- Close characters of the tokenizer (`text/parser.rs`, `Scan` and
`Close` match arms), by code point: right parenthesis, right square
bracket, right curly bracket, right-pointing double angle quotation
mark, right single quotation mark, right double quotation mark. -/
def isCloseChar (c : Char) : Bool :=
  c.toNat = 0x29 || c.toNat = 0x5d || c.toNat = 0x7d || c.toNat = 0xbb ||
  c.toNat = 0x2019 || c.toNat = 0x201d

/-- Open characters of the tokenizer, by code point. -/
def isOpenChar (c : Char) : Bool :=
  c.toNat = 0x28 || c.toNat = 0x5b || c.toNat = 0x7b || c.toNat = 0xab ||
  c.toNat = 0x2018 || c.toNat = 0x201c

/-- Punctuation characters of the tokenizer, by code point: apostrophe,
comma, semicolon, inverted exclamation and question marks, exclamation
mark, full stop, question mark, colon, hyphen-minus, en dash, em dash,
horizontal ellipsis. -/
def isPunctChar (c : Char) : Bool :=
  c.toNat = 0x27 || c.toNat = 0x2c || c.toNat = 0x3b || c.toNat = 0xa1 ||
  c.toNat = 0xbf || c.toNat = 0x21 || c.toNat = 0x2e || c.toNat = 0x3f ||
  c.toNat = 0x3a || c.toNat = 0x2d || c.toNat = 0x2013 || c.toNat = 0x2014 ||
  c.toNat = 0x2026

/-- Symbol characters of the tokenizer, by code point (the ASCII and
Latin-9 symbol arms of the `Scan` and `Symbol` states). -/
def isSymbolChar (c : Char) : Bool :=
  c.toNat = 0x22 || c.toNat = 0x23 || c.toNat = 0x24 || c.toNat = 0x25 ||
  c.toNat = 0x26 || c.toNat = 0x2a || c.toNat = 0x2b || c.toNat = 0x2f ||
  c.toNat = 0x3c || c.toNat = 0x3d || c.toNat = 0x3e || c.toNat = 0x40 ||
  c.toNat = 0x5e || c.toNat = 0x5f || c.toNat = 0x60 || c.toNat = 0x7c ||
  c.toNat = 0x7e || c.toNat = 0xa2 || c.toNat = 0xa3 || c.toNat = 0xa5 ||
  c.toNat = 0xa7 || c.toNat = 0xa9 || c.toNat = 0xac || c.toNat = 0xae ||
  c.toNat = 0xaf || c.toNat = 0xb0 || c.toNat = 0xb1 || c.toNat = 0xb6 ||
  c.toNat = 0xb7 || c.toNat = 0xd7 || c.toNat = 0xf7 || c.toNat = 0x20ac

/-- Tokenizer states (`StateMachine` in `text/parser.rs`); the data
accumulated besides the shared core is the pending text (and for
`Escape` the consumed-character count). -/
inductive SM where
  | Close (st : PCore) (text : String)
  | Escape (st : PCore) (text : String) (count : Nat)
  | Open (st : PCore) (text : String)
  | Punct (st : PCore) (text : String)
  | Scan (st : PCore)
  | Space (st : PCore) (text : String)
  | Symbol (st : PCore) (text : String)
  | Word (st : PCore) (text : String)
deriving DecidableEq

/-- `State::at_full_stop` (`text/parser.rs`): scan the accumulated
tokens in reverse, skipping Close tokens; at the first Punct report its
FS flag; anything else stops the scan. -/
def atFullStopGo : List Tok → Bool
  | [] => false
  | t :: rest =>
    match t.kind with
    | TokKind.Close => atFullStopGo rest
    | TokKind.Punct => t.frm.fs
    | _ => false

/-- `State::at_full_stop` (`text/parser.rs`), reverse iteration made
explicit. -/
def at_full_stop (toks : List Tok) : Bool := atFullStopGo toks.reverse

/-- `State::remove_preceding_full_stop_flag` (`text/parser.rs`),
working on the reversed token list: Close tokens are passed over, every
Punct of the trailing Close/Punct run loses its FS and EOS flags, and
the scan stops at the first other token. -/
def rpfsGo : List Tok → List Tok
  | [] => []
  | t :: rest =>
    match t.kind with
    | TokKind.Close => t :: rpfsGo rest
    | TokKind.Punct =>
      { t with frm := { t.frm with fs := false, eos := false } } :: rpfsGo rest
    | _ => t :: rest

/-- `State::remove_preceding_full_stop_flag` (`text/parser.rs`). -/
def remove_preceding_full_stop_flag (toks : List Tok) : List Tok :=
  (rpfsGo toks.reverse).reverse

/-- Transition `From<State<CloseData>> for State<ScanData>`
(`text/parser.rs`): push the accumulated Close token and reset the
format flags. -/
def closeToScan (st : PCore) (text : String) : SM :=
  SM.Scan { st with
    tokens := st.tokens ++ [{ kind := TokKind.Close, text := text, dpy := st.dpy, frm := st.frm }],
    frm := {} }

/-- Transition `From<State<OpenData>> for State<ScanData>`. -/
def openToScan (st : PCore) (text : String) : SM :=
  SM.Scan { st with
    tokens := st.tokens ++ [{ kind := TokKind.Open, text := text, dpy := st.dpy, frm := st.frm }],
    frm := {} }

/-- Transition `From<State<PunctData>> for State<ScanData>`. -/
def punctToScan (st : PCore) (text : String) : SM :=
  SM.Scan { st with
    tokens := st.tokens ++ [{ kind := TokKind.Punct, text := text, dpy := st.dpy, frm := st.frm }],
    frm := {} }

/-- Transition `From<State<SymbolData>> for State<ScanData>`. -/
def symbolToScan (st : PCore) (text : String) : SM :=
  SM.Scan { st with
    tokens := st.tokens ++ [{ kind := TokKind.Symbol, text := text, dpy := st.dpy, frm := st.frm }],
    frm := {} }

/-- Transition `From<State<WordData>> for State<ScanData>`: push the
Word token and bump the word counter. -/
def wordToScan (st : PCore) (text : String) : SM :=
  SM.Scan { st with
    tokens := st.tokens ++ [{ kind := TokKind.Word, text := text, dpy := st.dpy, frm := st.frm }],
    word_count := st.word_count + 1,
    frm := {} }

/-- Transition `From<State<EscapeData>> for State<ScanData>`
(`text/parser.rs`): an accumulated backslash yields a Symbol token; an
accumulated single space removes the FS and EOS flags from the
preceding Punct run and yields a single-space Space token carrying DLB
and DOB; any other accumulated text is an unknown escape, warned about
and dropped. -/
def escapeToScan (st : PCore) (text : String) : SM :=
  if text = "\\" then
    SM.Scan { st with
      tokens := st.tokens ++ [{ kind := TokKind.Symbol, text := "\\", dpy := st.dpy, frm := st.frm }],
      frm := {} }
  else if text = " " then
    let tok : Tok :=
      { kind := TokKind.Space, text := " ", dpy := st.dpy, frm := { st.frm with dlb := true, dob := true } }
    SM.Scan { st with tokens := remove_preceding_full_stop_flag st.tokens ++ [tok], frm := {} }
  else
    SM.Scan { st with frm := {} }

/-- Transition `From<State<SpaceData>> for State<ScanData>`
(`text/parser.rs`): after an MLB token the whitespace is discarded;
otherwise a Space token is pushed whose literal is two spaces after a
full stop and one space otherwise, carrying DLB and DOB. -/
def spaceToScan (st : PCore) : SM :=
  let discard :=
    match st.tokens.getLast? with
    | some t => t.frm.mlb
    | none => false
  if discard then
    SM.Scan { st with frm := {} }
  else
    let txt := if at_full_stop st.tokens then "  " else " "
    let tok : Tok :=
      { kind := TokKind.Space, text := txt, dpy := st.dpy, frm := { st.frm with dlb := true, dob := true } }
    SM.Scan { st with tokens := st.tokens ++ [tok], frm := {} }

/-- One step of the tokenizer on the next character
(`StateMachine::step` in `text/parser.rs`); the boolean tells the
driver whether the character was consumed. -/
def SM.step : SM → Char → SM × Bool
  | SM.Close st text, c =>
    if c.toNat = 0x29 || c.toNat = 0x5d || c.toNat = 0x7d || c.toNat = 0xbb then
      (closeToScan st (text.push c), true)
    else if c.toNat = 0x2019 then
      (closeToScan st (text ++ "\u0027"), true)
    else if c.toNat = 0x201d then
      (closeToScan st (text ++ "\""), true)
    else
      (closeToScan st text, true)
  | SM.Escape st text count, c =>
    if count = 0 then
      (SM.Escape st text 1, true)
    else if count = 1 then
      if c.isWhitespace then
        (SM.Escape st (text.push ' ') 2, true)
      else if c.toNat = 0x5c then
        (escapeToScan st (text.push c), true)
      else
        (escapeToScan st (text.push c), true)
    else
      if c.isWhitespace then
        (SM.Escape st text (count + 1), true)
      else
        (escapeToScan st text, false)
  | SM.Open st text, c =>
    if c.toNat = 0x28 || c.toNat = 0x5b || c.toNat = 0x7b || c.toNat = 0xab then
      (openToScan st (text.push c), true)
    else if c.toNat = 0x2018 then
      (openToScan st (text ++ "\u0027"), true)
    else if c.toNat = 0x201c then
      (openToScan st (text ++ "\""), true)
    else
      (openToScan st text, true)
  | SM.Punct st text, c =>
    if c.toNat = 0x27 || c.toNat = 0x2c || c.toNat = 0x3b || c.toNat = 0xa1 ||
       c.toNat = 0xbf then
      (punctToScan st (text.push c), true)
    else if c.toNat = 0x21 || c.toNat = 0x2e || c.toNat = 0x3f then
      (punctToScan { st with frm := { st.frm with fs := true, eos := true } } (text.push c), true)
    else if c.toNat = 0x3a then
      (punctToScan { st with frm := { st.frm with fs := true } } (text.push c), true)
    else if c.toNat = 0x2d then
      (punctToScan { st with frm := { st.frm with dlb := true } } (text.push c), true)
    else if c.toNat = 0x2013 then
      (punctToScan { st with frm := { st.frm with eos := true } } (text ++ "-"), true)
    else if c.toNat = 0x2014 then
      (punctToScan { st with frm := { st.frm with eos := true } } (text ++ "--"), true)
    else if c.toNat = 0x2026 then
      (punctToScan { st with frm := { st.frm with eos := true } } (text ++ "..."), true)
    else
      (punctToScan st text, true)
  | SM.Scan st, c =>
    if isCloseChar c then
      (SM.Close { st with frm := {} } "", false)
    else if c.toNat = 0x5c then
      (SM.Escape { st with frm := {} } "" 0, false)
    else if isOpenChar c then
      (SM.Open { st with frm := {} } "", false)
    else if isPunctChar c then
      (SM.Punct { st with frm := {} } "", false)
    else if c.isWhitespace then
      (SM.Space { st with frm := {} } "", false)
    else if isSymbolChar c then
      (SM.Symbol { st with frm := {} } "", false)
    else if c.isAlphanum then
      (SM.Word { st with frm := {} } "", false)
    else
      (SM.Scan st, true)
  | SM.Space st text, c =>
    if c.isWhitespace then
      (SM.Space st (text.push c), true)
    else
      (spaceToScan st, false)
  | SM.Symbol st text, c =>
    if isSymbolChar c then
      (symbolToScan st (text.push c), true)
    else
      (symbolToScan st text, true)
  | SM.Word st text, c =>
    if c.isAlphanum then
      (SM.Word st (text.push c), true)
    else
      (wordToScan st text, false)

/-- `StateMachine::flush` (`text/parser.rs`): force the machine into
the `Scan` state at the end of the input, converting pending data into
tokens. -/
def SM.flush : SM → SM
  | SM.Close st text => closeToScan st text
  | SM.Escape st text _ => escapeToScan st text
  | SM.Open st text => openToScan st text
  | SM.Punct st text => punctToScan st text
  | SM.Scan st => SM.Scan st
  | SM.Space st _ => spaceToScan st
  | SM.Symbol st text => symbolToScan st text
  | SM.Word st text => wordToScan st text

/-- Token accumulator of a tokenizer state (`StateMachine::get_tokens`). -/
def SM.getTokens : SM → List Tok
  | SM.Close st _ => st.tokens
  | SM.Escape st _ _ => st.tokens
  | SM.Open st _ => st.tokens
  | SM.Punct st _ => st.tokens
  | SM.Scan st => st.tokens
  | SM.Space st _ => st.tokens
  | SM.Symbol st _ => st.tokens
  | SM.Word st _ => st.tokens

/-- Driver loop of `Parser::run` (`text/parser.rs`): step the machine,
popping the front character only when the step consumed it, and flush
at the end of the buffer.  The fuel bounds the number of steps; each
character needs at most three (leave a sub-state, re-dispatch from
`Scan`, consume), so the driver below always supplies enough. -/
def runSM : Nat → SM → List Char → SM
  | 0, sm, _ => sm.flush
  | _ + 1, sm, [] => sm.flush
  | fuel + 1, sm, c :: cs =>
    let p := sm.step c
    if p.2 then runSM fuel p.1 cs else runSM fuel p.1 (c :: cs)

/-- `Parser::new` followed by `Parser::run` and `Parser::get_tokens`
(`text/parser.rs`): tokenize the characters, appending to the given
token list, with the given display flags. -/
def tokenize (s : List Char) (toks : List Tok) (dpy : DisplayFlags) : List Tok :=
  (runSM (3 * s.length + 3) (SM.Scan ⟨toks, 0, dpy, {}⟩) s).getTokens

/-- Page-grid constants (`document.rs`). -/
def TOP_LINE : Nat := 60

/-- Bottom line of the page body (`document.rs`). -/
def BOTTOM_LINE : Nat := 6

/-- Cue tab stop (`document.rs`). -/
def CUE_BEGIN : Nat := 42

/-- Transition left margin (`document.rs`). -/
def TRANS_BEGIN : Nat := 60

/-- Stage direction left margin (`document.rs`). -/
def P_BEGIN : Nat := 16

/-- Stage direction right margin (`document.rs`). -/
def P_END : Nat := 72

/-- Dialogue left margin (`document.rs`). -/
def D_BEGIN : Nat := 26

/-- Dialogue right margin (`document.rs`). -/
def D_END : Nat := 59

/-- Modelled from the spec: a Segment is (text, display flags); the
`text` module root defining it is missing from the sources. -/
structure Segment where
  text : String
  dpy : DisplayFlags := {}
deriving DecidableEq

/-- Modelled from the spec: a Line is a column and a sequence of
segments; the `text` module root defining it is missing from the
sources.  `Line::from` leaves the column at 0; the formatter assigns it
afterwards. -/
structure Line where
  column : Nat
  segments : List Segment
deriving DecidableEq

/-- Modelled from the spec: a line's length is the character count of
its segments. -/
def Line.length (l : Line) : Nat := (l.segments.map (fun s => s.text.length)).sum

/-- Modelled from the spec: adjacent tokens with the same display flags
merge into one segment; a flag change starts a new segment. -/
def segmentize : List Tok → List Segment
  | [] => []
  | t :: ts =>
    match segmentize ts with
    | [] => [⟨t.text, t.dpy⟩]
    | s :: rest =>
      if s.dpy = t.dpy then ⟨t.text ++ s.text, t.dpy⟩ :: rest
      else ⟨t.text, t.dpy⟩ :: s :: rest

/-- Modelled from the spec: `Line::from(&[TokenType])`, a one-line
rendering of a token slice with column 0. -/
def lineOfToks (toks : List Tok) : Line := ⟨0, segmentize toks⟩

/-- Modelled from the spec: `text::linebreak_fill`, greedy fill of a
token slice at the given width, as Line objects with column 0. -/
def linebreak_fill (toks : List Tok) (w : Nat) : List Line :=
  (fillGo w toks [] []).map lineOfToks

/-- A typed page to be output (`Page` in `formatter.rs`): page number,
maximum number of lines allowed, body lines (`None` is a blank slot)
and footer lines. -/
structure Page where
  number : Int
  height : Nat
  lines : List (Option Line)
  footer : List (Option Line)
deriving DecidableEq

/-- Format driver state (`Formatter` in `formatter.rs`). -/
structure Formatter where
  title : String
  body : List Page
  next_page_no : Int
  last_padding_after : Nat
  break_selection : List (Option BreakType)
  cur_cue : Option Line
  numbering : Numbering
  cur_scene : Option String
  scene_page_no : Int
deriving DecidableEq

/-- `Formatter::new` (`formatter.rs`). -/
def Formatter.new : Formatter :=
  ⟨"Working Title", [], 1, 0, [], Option.none, Numbering.None, Option.none, -1⟩

/-- `Formatter::start_a_new_page` (`formatter.rs`): append a fresh page
of height `TOP_LINE - BOTTOM_LINE + 1`, bump the page number, clear the
cached padding, and advance the intra-scene page counter when inside a
scene. -/
def Formatter.start_a_new_page (f : Formatter) : Formatter :=
  { f with
    body := f.body ++ [⟨f.next_page_no, TOP_LINE - BOTTOM_LINE + 1, [], []⟩],
    next_page_no := f.next_page_no + 1,
    last_padding_after := 0,
    scene_page_no := if 0 ≤ f.scene_page_no then f.scene_page_no + 1 else f.scene_page_no }

/-- `Formatter::lines_remaining` (`formatter.rs`): height minus used
body lines of the last page, 0 when there is no page yet. -/
def Formatter.lines_remaining (f : Formatter) : Int :=
  match f.body.getLast? with
  | some page => (page.height : Int) - (page.lines.length : Int)
  | none => 0

/-- Mutation of the current page (`Formatter::cur_page`); the source
asserts the page list is nonempty, so the empty case is unreachable in
modelled runs and is the identity here. -/
def Formatter.modifyLast (f : Formatter) (g : Page → Page) : Formatter :=
  match f.body.getLast? with
  | some page => { f with body := f.body.dropLast ++ [g page] }
  | none => f

/-- Push one line slot onto the current page
(`self.cur_page().lines.push(...)` in `formatter.rs`). -/
def Formatter.pushLine (f : Formatter) (l : Option Line) : Formatter :=
  f.modifyLast fun p => { p with lines := p.lines ++ [l] }

/-- The blank slots `Formatter::push_blank_lines` appends to the given
page: the requested count clamped to the lines remaining, nothing when
the clamp is not positive. -/
def blankChunk (n : Nat) (p : Page) : List (Option Line) :=
  let m := min (n : Int) ((p.height : Int) - (p.lines.length : Int))
  if 0 < m then List.replicate m.toNat Option.none else []

/-- `Formatter::push_blank_lines` (`formatter.rs`). -/
def Formatter.push_blank_lines (f : Formatter) (n : Nat) : Formatter :=
  let r := f.lines_remaining
  let m := min (n : Int) r
  if 0 < m then
    f.modifyLast fun p => { p with lines := p.lines ++ List.replicate m.toNat Option.none }
  else
    f

/-- `Formatter::add_numbering` (`formatter.rs`): right-justify the
scene label to `P_END` for Right/Full numbering, and prepend it padded
to at least 6 characters for Left/Full numbering, shifting the column
left. -/
def add_numbering (nb : Numbering) (label : String) (line : Line) : Line :=
  let w := P_END - P_BEGIN + 1
  let line :=
    if nb = Numbering.Right ∨ nb = Numbering.Full then
      let n := w - line.length + 1
      { line with segments := line.segments ++ [⟨String.mk (List.replicate n ' ') ++ label, {}⟩] }
    else line
  if nb = Numbering.Left ∨ nb = Numbering.Full then
    let n := (max (6 - (label.length : Int)) 0).toNat
    let pfx := label ++ String.mk (List.replicate n ' ')
    { column := line.column - pfx.length, segments := ⟨pfx, {}⟩ :: line.segments }
  else line

/-- The `CONTINUED:` header line built by `Formatter::push_continued_top`
(`formatter.rs`) from the intra-scene page counter, the scene label and
the numbering mode. -/
def contTopLine (scene_page_no : Int) (cur_scene : Option String) (nb : Numbering) : Line :=
  let line : Line := ⟨P_BEGIN, [⟨"CONTINUED:", {}⟩]⟩
  let line :=
    if 1 < scene_page_no then
      { line with segments := line.segments ++ [⟨" (" ++ toString scene_page_no ++ ")", {}⟩] }
    else line
  match cur_scene with
  | some label => add_numbering nb label line
  | none => line

/-- `Formatter::push_continued_top` (`formatter.rs`): push the header
line and one blank (clamped). -/
def Formatter.push_continued_top (f : Formatter) : Formatter :=
  (f.pushLine (some (contTopLine f.scene_page_no f.cur_scene f.numbering))).push_blank_lines 1

/-- The `(CONTINUED)` footer-of-body line of
`Formatter::push_continued_bottom` (`formatter.rs`). -/
def contBottomLine : Line := ⟨TRANS_BEGIN, [⟨"(CONTINUED)", {}⟩]⟩

/-- `Formatter::push_continued_bottom` (`formatter.rs`): one blank
(clamped), then the `(CONTINUED)` line, both appended to the body line
list of the current page (the `Page::footer` field is not touched). -/
def Formatter.push_continued_bottom (f : Formatter) : Formatter :=
  (f.push_blank_lines 1).pushLine (some contBottomLine)

/-- The `(MORE)` line pushed when dialogue is split (`formatter.rs`,
`ElementType::D` arm). -/
def moreLine : Line := ⟨CUE_BEGIN, [⟨"(MORE)", {}⟩]⟩

/-- The ` (CONT'D)` suffix segment appended to the reprinted cue
(`formatter.rs`, `ElementType::D` arm). -/
def contdSeg : Segment := ⟨" (CONT\u0027D)", {}⟩

/-- Push the fill-wrapped lines of a token slice at the element's left
margin (the `for mut line in lines` loops of the `ElementType::D` arm
in `formatter.rs`). -/
def Formatter.pushFillLines (f : Formatter) (toks : List Tok) (w col : Nat) : Formatter :=
  (linebreak_fill toks w).foldl
    (fun f l => f.pushLine (some { l with column := col })) f

/-- Reprint the cached cue suffixed ` (CONT'D)` (`formatter.rs`,
`ElementType::D` arm): when a cue line is cached, clear the cache and
push the suffixed line. -/
def Formatter.pushContdCue (f : Formatter) : Formatter :=
  match f.cur_cue with
  | some line =>
    { f with cur_cue := Option.none }.pushLine
      (some { line with segments := line.segments ++ [contdSeg] })
  | Option.none => f

/-- The `ElementType::D` arm of `Formatter::run` (`formatter.rs`):
push the inter-element blanks, then dispatch on the front of the
break-selection queue: with no entry or a `None` entry, fill-wrap the
whole dialogue; with `Atomic`, emit everything, `(MORE)`, the
`(CONTINUED)` bottom (inside a scene), a new page, the `CONTINUED:`
header (inside a scene) and the reprinted cue; with `Point(bp)`, the
same around the split at `bp.token_index`; other break types do
nothing. -/
def Formatter.formatD (f : Formatter) (e : TextElement DAttrs)
    (padding_before padding_after : Nat) : Formatter :=
  let w := e.attributes.right_margin - e.attributes.left_margin + 1
  let col := e.attributes.left_margin
  let f := f.push_blank_lines (max padding_before padding_after)
  match f.break_selection with
  | [] => f.pushFillLines e.tokens w col
  | sel :: restSel =>
    let f := { f with break_selection := restSel }
    match sel with
    | Option.none => f.pushFillLines e.tokens w col
    | some bi =>
      match bi with
      | BreakType.Atomic _ =>
        let f := f.pushFillLines e.tokens w col
        let f := f.pushLine (some moreLine)
        let f := if 0 ≤ f.scene_page_no then f.push_continued_bottom else f
        let f := f.start_a_new_page
        let f := if 0 ≤ f.scene_page_no then f.push_continued_top else f
        f.pushContdCue
      | BreakType.Point bp =>
        let f := f.pushFillLines (e.tokens.take bp.token_index) w col
        let f := f.pushLine (some moreLine)
        let f := if 0 ≤ f.scene_page_no then f.push_continued_bottom else f
        let f := f.start_a_new_page
        let f := if 0 ≤ f.scene_page_no then f.push_continued_top else f
        let f := f.pushContdCue
        f.pushFillLines (e.tokens.drop bp.token_index) w col
      | _ => f

/-- The element subset of the formatter run modelled here: the
screenplay root, the body container, a blank `br` and a dialogue
element (the variants exercised by the claims; `format_fly_page` and
the remaining arms are not modelled, which leaves body pages
unaffected). -/
inductive Elem where
  | Screenplay (numbering : Numbering) (children : List Elem)
  | Body (children : List Elem)
  | Br
  | D (e : TextElement DAttrs)

/-- `ElementType::get_padding_before` (`document.rs`) on the modelled
subset: only text elements carry padding; `Br`, `Screenplay` and
`Body` yield none. -/
def Elem.paddingBefore : Elem → Option Int
  | Elem.D e => some e.attributes.padding_before
  | _ => Option.none

/-- `ElementType::get_padding_after` (`document.rs`) on the modelled
subset. -/
def Elem.paddingAfter : Elem → Option Nat
  | Elem.D e => some e.attributes.padding_after
  | _ => Option.none

/-- `ElementIntoIterator` (`document.rs`): pre-order flattening with a
container's children inlined after the (drained) container itself. -/
def flattenElems : List Elem → List Elem
  | [] => []
  | Elem.Screenplay nb cs :: rest =>
    Elem.Screenplay nb [] :: (flattenElems cs ++ flattenElems rest)
  | Elem.Body cs :: rest =>
    Elem.Body [] :: (flattenElems cs ++ flattenElems rest)
  | Elem.Br :: rest => Elem.Br :: flattenElems rest
  | Elem.D e :: rest => Elem.D e :: flattenElems rest

/-- One iteration of the element loop of `Formatter::run`
(`formatter.rs`): resolve `padding_before` (negative means page break
plus `-n-1` blanks), cache `padding_after`, then dispatch on the
element. -/
def Formatter.handleElem (f : Formatter) (e : Elem) : Formatter :=
  let fpb :=
    match e.paddingBefore with
    | some n => if n < 0 then (f.start_a_new_page, (-n - 1).toNat) else (f, n.toNat)
    | Option.none => (f, 0)
  let f := fpb.1
  let pb := fpb.2
  let pa := f.last_padding_after
  let f :=
    match e.paddingAfter with
    | some n => { f with last_padding_after := n }
    | Option.none => f
  match e with
  | Elem.Screenplay nb _ => ({ f with numbering := nb }).start_a_new_page
  | Elem.Body _ => f
  | Elem.Br => f.push_blank_lines 1
  | Elem.D de => f.formatD de pb pa

/-- The element loop of `Formatter::run` over the modelled subset,
starting from `Formatter::new`; the fly page synthesized at the end of
the source run is not modelled (it is prepended, leaving the body pages
unchanged). -/
def runBody (root : Elem) : Formatter :=
  (flattenElems [root]).foldl Formatter.handleElem Formatter.new

/-- Whether the first token of a list is a Space token. -/
def headIsSpace (l : List Tok) : Bool :=
  match l.head? with
  | some t => t.kind = TokKind.Space
  | none => false

/-- Whether the last token of a list is a Space token. -/
def lastIsSpace (l : List Tok) : Bool :=
  match l.getLast? with
  | some t => t.kind = TokKind.Space
  | none => false

/-- No two adjacent tokens are both Space tokens.  A single tokenizer
run never produces two adjacent Space tokens; appending the tokens of a
nested `em` child can. -/
def pairNS (a b : Tok) : Prop :=
  ¬(a.kind = TokKind.Space ∧ b.kind = TokKind.Space)

/-- Default break point used with `List.getLastD`. -/
def bp0 : BreakPoint := ⟨0, false, 0⟩

/-- The body-line slots the `ElementType::D` arm pushes for a wrapped
token slice: fill at the element's width, each line at the element's
left margin. -/
def fillSlots (toks : List Tok) (a : DAttrs) : List (Option Line) :=
  (linebreak_fill toks (a.right_margin - a.left_margin + 1)).map
    (fun l => some { l with column := a.left_margin })

/-- A Punct full-stop token as the tokenizer emits it for `.`. -/
def dotTok : Tok :=
  { kind := TokKind.Punct, text := ".", frm := { fs := true, eos := true } }

/-- Word of 16 characters (concrete instance data). -/
def word16 : Tok := wordTok "aaaaaaaaaaaaaaaa"

/-- Word of 17 characters (concrete instance data). -/
def word17 : Tok := wordTok "bbbbbbbbbbbbbbbbb"

/-- Concrete dialogue element whose break list ends in a sentinel that
repeats the token index: `hi` followed by a mandatory line break. -/
def c4elemA : TextElement DAttrs :=
  { attributes := ⟨0, D_BEGIN, D_END, 0, 0⟩, tokens := [wordTok "hi", lineBreakTok] }

/-- Concrete dialogue element whose last line exactly reaches the
dialogue width, so the sentinel line number exceeds the fill count. -/
def c4elemB : TextElement DAttrs :=
  { attributes := ⟨0, D_BEGIN, D_END, 0, 0⟩, tokens := [word16, dotTok, spaceTok, word17] }

/-- Concrete dialogue element starting with two Space tokens (as
produced by a leading space before an `em` child whose text also starts
with a space). -/
def c6elem : TextElement DAttrs :=
  { attributes := ⟨0, D_BEGIN, D_END, 0, 0⟩, tokens := [spaceTok, spaceTok, wordTok "hi"] }

/-- Concrete dialogue element whose token list starts with a sentence
ending Punct. -/
def c7elem : TextElement DAttrs :=
  { attributes := ⟨0, D_BEGIN, D_END, 0, 0⟩, tokens := [dotTok, wordTok "hi"] }

/-- Concrete cue whose train is one personal direction of height 1. -/
def c5cue : TextElement CueAttrs :=
  { attributes := ⟨CUE_BEGIN, [BreakType.Forbidden 1], 1, 0⟩, tokens := [wordTok "BOB"] }

/-- Concrete cue whose train is one dialogue with a two-point break
list. -/
def c10cue : TextElement CueAttrs :=
  { attributes := ⟨CUE_BEGIN, [BreakType.List [⟨2, true, 1⟩, ⟨4, false, 2⟩]], 1, 0⟩,
    tokens := [wordTok "BOB"] }

/-- Concrete body `[cue, d, slug]`: the dialogue before the slug is the
last content element of the scene and must be flagged. -/
def c3body : List BodyElem :=
  [⟨Tag.Cue, false⟩, ⟨Tag.D, false⟩, ⟨Tag.Slug, false⟩]

/-- Concrete dialogue of 57 wrapped lines (56 `<br/>`-terminated words
plus the final empty line). -/
def c2dialogue : TextElement DAttrs :=
  { attributes := ⟨0, D_BEGIN, D_END, 0, 0⟩,
    tokens := (List.replicate 56 [wordTok "a", lineBreakTok]).flatten }

/-- Concrete screenplay: a body holding a single dialogue with no
preceding cue. -/
def c2root : Elem := Elem.Screenplay Numbering.None [Elem.Body [Elem.D c2dialogue]]

/-- Concrete formatter state inside a scene, with one page in progress,
a cached cue line and a selected dialogue break point queued. -/
def c1fmtr : Formatter :=
  { title := "t", body := [⟨1, 55, [], []⟩], next_page_no := 2, last_padding_after := 0,
    break_selection := [some (BreakType.Point ⟨2, true, 1⟩)],
    cur_cue := some ⟨CUE_BEGIN, [⟨"BOB", {}⟩]⟩,
    numbering := Numbering.None, cur_scene := Option.none, scene_page_no := 1 }

/-- Concrete dialogue element for the split scenario. -/
def c1elem : TextElement DAttrs :=
  { attributes := ⟨0, D_BEGIN, D_END, 0, 0⟩,
    tokens := [wordTok "a", spaceTok, wordTok "b"] }

/-- Concrete core state for the tokenizer witness: a full-stop Punct
already accumulated. -/
def c8core : PCore := ⟨[dotTok], 0, {}, {}⟩

/-- C9: scene numbers auto-increment.  A slug without a `number`
attribute is assigned the reader's running counter, which starts at 1;
a slug with an explicit attribute `n` is assigned `n` and resets the
counter so that the next unnumbered slug is assigned `n + 1`. -/
theorem scene_numbers_auto_increment :
    (∀ rest : List (Option Int),
      readerSceneNumbers (Option.none :: rest) = 1 :: assignSceneNumbers 2 rest) ∧
    (∀ (c : Int) (rest : List (Option Int)),
      assignSceneNumbers c (Option.none :: rest) = c :: assignSceneNumbers (c + 1) rest) ∧
    (∀ (c n : Int) (rest : List (Option Int)),
      assignSceneNumbers c (some n :: rest) = n :: assignSceneNumbers (n + 1) rest) ∧
    (∀ (c n : Int) (rest : List (Option Int)),
      assignSceneNumbers c (some n :: Option.none :: rest)
        = n :: (n + 1) :: assignSceneNumbers (n + 2) rest) := by
  refine ⟨?_, ?_, ?_, ?_⟩ <;> intros <;>
    simp [readerSceneNumbers, assignSceneNumbers, slugNumberStep] <;> ring_nf

/-- C5: `Cue::select_break` with fewer than 2 lines remaining returns
`(-1, None)` (never orphan a cue), and when the whole dialogue fits
(`count_lines` at most the lines remaining) it returns the train length
with `None`. -/
theorem cue_select_break_easy_cases (e : TextElement CueAttrs) (r : Int) :
    (r < 2 → e.select_break r = some (-1, BreakType.None)) ∧
    (∀ h : Nat, 2 ≤ r → e.count_lines = some h → (h : Int) ≤ r →
      e.select_break r = some ((e.attributes.train.length : Int), BreakType.None)) := by
  constructor
  · intro hr
    simp [TextElement.select_break, hr]
  · intro h hr hcl hle
    have h2 : ¬ r < 2 := by omega
    simp [TextElement.select_break, h2, hcl, hle]

/-- C5 witness: the easy cases at a concrete cue with a height-1 train
member, for 1 and 5 lines remaining. -/
theorem cue_select_break_easy_cases_witness :
    ((1 : Int) < 2 ∧ c5cue.select_break 1 = some (-1, BreakType.None)) ∧
    ((2 : Int) ≤ 5 ∧ c5cue.count_lines = some 2 ∧ ((2 : Nat) : Int) ≤ 5 ∧
      c5cue.select_break 5 = some ((c5cue.attributes.train.length : Int), BreakType.None)) :=
  ⟨⟨by decide, (cue_select_break_easy_cases c5cue 1).1 (by decide)⟩,
   by decide, by decide, by decide,
   (cue_select_break_easy_cases c5cue 5).2 2 (by decide) (by decide) (by decide)⟩

/-- C7 (amended): for a D or P element whose trimmed token list begins
with a Punct token, finalization removes the EOS flag from that leading
Punct but keeps its FS flag (the source's `remove_leading_eos` removes
only `FormatFlags::EOS`). -/
theorem leading_punct_eos_removed (e : TextElement DAttrs) (t : Tok) (rest : List Tok)
    (hind : e.attributes.indent = 0)
    (htrim : trim_whitespace e.tokens = t :: rest)
    (hp : t.kind = TokKind.Punct) :
    (finalizeD e).tokens.head? = some { t with frm := { t.frm with eos := false } } ∧
    ∀ (t1 : Tok) (l : List Tok), t1.kind = TokKind.Punct →
      remove_leading_eos (t1 :: l) = { t1 with frm := { t1.frm with eos := false } } :: l := by
  constructor
  · simp [finalizeD, htrim, remove_leading_eos, hp, hind]
  · intro t1 l h1
    simp [remove_leading_eos, h1]

/-- C7 witness: the amended behaviour at a concrete dialogue starting
with a full stop. -/
theorem leading_punct_eos_removed_witness :
    (c7elem.attributes.indent = 0 ∧
      trim_whitespace c7elem.tokens = dotTok :: [wordTok "hi"] ∧
      dotTok.kind = TokKind.Punct) ∧
    (finalizeD c7elem).tokens.head?
      = some { dotTok with frm := { dotTok.frm with eos := false } } :=
  ⟨⟨by decide, by decide, by decide⟩,
   (leading_punct_eos_removed c7elem dotTok [wordTok "hi"] (by decide) (by decide) (by decide)).1⟩

/-- C7 counterexample: the claim as stated is false — on a dialogue
beginning with `.` (FS and EOS set), finalization leaves the FS flag on
the leading Punct; only EOS is removed. -/
theorem leading_punct_fs_kept_counterexample :
    (finalizeD c7elem).tokens.head?
      = some { kind := TokKind.Punct, text := ".",
               frm := { fs := true, eos := false, dlb := false, dob := false, mlb := false } } ∧
    ((finalizeD c7elem).tokens.head?.map (fun t => t.frm.fs)) = some true := by
  decide

/-- C3: the code is wrong.  `mark_scene_endings` scans predecessors
with `for j in i - 1 ..= 0`, an empty Rust range whenever `i ≥ 2`, so
for the body `[cue, d, slug]` neither the dialogue (the first non-Head
element before the slug) nor the cue is flagged; the inner loops only
ever run when the slug (or flagged dialogue) sits at position 1. -/
theorem mark_scene_endings_empty_range_bug :
    mark_scene_endings c3body = c3body ∧
    (mark_scene_endings c3body).map BodyElem.at_scene_end = [false, false, false] ∧
    rustRangeIncl (2 - 1) 0 = [] ∧
    mark_scene_endings [⟨Tag.P, false⟩, ⟨Tag.Slug, false⟩]
      = [⟨Tag.P, true⟩, ⟨Tag.Slug, false⟩] := by
  decide

set_option maxRecDepth 8000 in
/-- C2: the code is wrong.  Blank padding is clamped to the page
height, but content lines are pushed unconditionally, so a dialogue
with no preceding cue (its break-selection queue is empty) overflows
the page: the single body page of this run holds 57 line slots while
its height — `TOP_LINE - BOTTOM_LINE + 1` — is 55. -/
theorem page_height_exceeded :
    (runBody c2root).body.map (fun p => (p.lines.length, p.height)) = [(57, 55)] ∧
    TOP_LINE - BOTTOM_LINE + 1 = 55 := by
  have hflat : flattenElems [c2root]
      = [Elem.Screenplay Numbering.None [], Elem.Body [], Elem.D c2dialogue] := by
    simp [c2root, flattenElems]
  constructor
  · show ((flattenElems [c2root]).foldl Formatter.handleElem Formatter.new).body.map
        (fun p => (p.lines.length, p.height)) = [(57, 55)]
    rw [hflat]
    decide
  · decide

theorem getLast?_exists_of_ne_nil {α : Type} {l : List α} (h : l ≠ []) :
    ∃ a, l.getLast? = some a := by
  cases hl : l.getLast? with
  | some a => exact ⟨a, rfl⟩
  | none => exact absurd (List.getLast?_eq_none_iff.mp hl) h

theorem countLinesGo_isSome (train : List BreakType)
    (h : ∀ bps : List BreakPoint, BreakType.List bps ∈ train → bps ≠ []) :
    ∀ acc : Nat, ∃ k, countLinesGo train acc = some k := by
  induction train with
  | nil => exact fun acc => ⟨acc, rfl⟩
  | cons bt rest ih =>
    intro acc
    have hrest : ∀ bps : List BreakPoint, BreakType.List bps ∈ rest → bps ≠ [] :=
      fun bps hm => h bps (List.mem_cons_of_mem _ hm)
    cases bt with
    | None => simpa [countLinesGo] using ih hrest acc
    | Mandatory => simpa [countLinesGo] using ih hrest acc
    | Forbidden hh => simpa [countLinesGo] using ih hrest (acc + hh)
    | Atomic hh => simpa [countLinesGo] using ih hrest (acc + hh)
    | Disposable hh => simpa [countLinesGo] using ih hrest (acc + hh)
    | Point bp => simpa [countLinesGo] using ih hrest (acc + bp.line_no)
    | List bps =>
      obtain ⟨bp, hbp⟩ := getLast?_exists_of_ne_nil (h bps (List.mem_cons_self _ _))
      simpa [countLinesGo, hbp] using ih hrest (acc + bp.line_no)

theorem ite_some_isSome {α : Type} {c : Prop} [Decidable c] {a : α} {x : Option α}
    (hx : ∃ b, x = some b) : ∃ b, (if c then some a else x) = some b := by
  split
  · exact ⟨a, rfl⟩
  · exact hx

theorem sbLoop_isSome (r : Int) (n : Nat) :
    ∀ (train : List BreakType) (i lc : Nat) (pI : Int) (pB : BreakType),
    (∀ bps : List BreakPoint, BreakType.List bps ∈ train → bps ≠ []) →
    ∃ res, sbLoop r n train i lc pI pB = some res := by
  intro train
  induction train with
  | nil => exact fun i lc pI pB _ => ⟨_, rfl⟩
  | cons bt rest ih =>
    intro i lc pI pB h
    have hrest : ∀ bps : List BreakPoint, BreakType.List bps ∈ rest → bps ≠ [] :=
      fun bps hm => h bps (List.mem_cons_of_mem _ hm)
    cases bt with
    | None => simpa [sbLoop] using ih (i + 1) lc pI pB hrest
    | Mandatory => exact ⟨((i : Int), BreakType.Mandatory), by simp [sbLoop]⟩
    | Forbidden hh =>
      simp only [sbLoop]
      exact ite_some_isSome (ih (i + 1) (lc + hh) pI pB hrest)
    | Atomic hh =>
      simp only [sbLoop]
      exact ite_some_isSome (ih (i + 1) (lc + hh) (i : Int) (BreakType.Atomic hh) hrest)
    | Disposable hh =>
      simp only [sbLoop]
      exact ite_some_isSome (ih (i + 1) (lc + hh) (i : Int) (BreakType.Disposable hh) hrest)
    | Point bp =>
      simp only [sbLoop]
      exact ite_some_isSome (ih (i + 1) lc (i : Int) (BreakType.Point bp) hrest)
    | List bps =>
      obtain ⟨bp, hbp⟩ := getLast?_exists_of_ne_nil (h bps (List.mem_cons_self _ _))
      simp only [sbLoop]
      cases hs : sbInner r lc (i : Int) bps pI pB with
      | inl res => exact ⟨res, rfl⟩
      | inr p =>
        simp only [hbp]
        exact ih (i + 1) (lc + bp.line_no) p.1 p.2 hrest

/-- C10: for a cue whose train contains no empty `List` break
descriptor, `count_lines` and `select_break` are total: `count_lines`
yields a value (its only indexing, the last entry of each `List`, is in
bounds), and `select_break` yields a value for every lines-remaining
argument (neither function panics). -/
theorem cue_no_empty_list_total (e : TextElement CueAttrs)
    (h : ∀ bps : List BreakPoint, BreakType.List bps ∈ e.attributes.train → bps ≠ []) :
    (∃ k, e.count_lines = some k) ∧ (∀ r : Int, ∃ res, e.select_break r = some res) := by
  obtain ⟨k, hk⟩ := countLinesGo_isSome e.attributes.train h 1
  have hcl : e.count_lines = some k := hk
  refine ⟨⟨k, hcl⟩, ?_⟩
  intro r
  by_cases hr : r < 2
  · exact ⟨(-1, BreakType.None), by simp [TextElement.select_break, hr]⟩
  · by_cases hfit : (k : Int) ≤ r
    · exact ⟨((e.attributes.train.length : Int), BreakType.None),
        by simp [TextElement.select_break, hr, hcl, hfit]⟩
    · obtain ⟨res, hres⟩ :=
        sbLoop_isSome r e.attributes.train.length e.attributes.train 0 1 (-1) BreakType.None h
      exact ⟨res, by simp [TextElement.select_break, hr, hcl, hfit, hres]⟩

/-- C10 witness: totality at a concrete cue whose train holds one
dialogue with a nonempty two-point break list. -/
theorem cue_no_empty_list_total_witness :
    (∀ bps : List BreakPoint, BreakType.List bps ∈ c10cue.attributes.train → bps ≠ []) ∧
    ((∃ k, c10cue.count_lines = some k) ∧ (∀ r : Int, ∃ res, c10cue.select_break r = some res)) :=
  ⟨fun bps hm => by
      simp [c10cue] at hm
      simp [hm],
   cue_no_empty_list_total c10cue (fun bps hm => by
      simp [c10cue] at hm
      simp [hm])⟩

theorem headIsSpace_of_chain_cons {a : Tok} {rest : List Tok}
    (h : List.Chain' pairNS (a :: rest)) (ha : a.kind = TokKind.Space) :
    headIsSpace rest = false := by
  cases rest with
  | nil => rfl
  | cons b r =>
    have hab : pairNS a b := (List.chain'_cons.mp h).1
    simp only [headIsSpace, List.head?_cons, decide_eq_false_iff_not]
    intro hb
    exact hab ⟨ha, hb⟩

theorem lastIsSpace_dropLast_of_chain :
    (l : List Tok) → List.Chain' pairNS l → lastIsSpace l = true →
    lastIsSpace l.dropLast = false
  | [], _, h => by simp [lastIsSpace] at h
  | [a], _, _ => by simp [lastIsSpace]
  | a :: b :: rest, hc, h => by
    cases rest with
    | nil =>
      have hab : pairNS a b := (List.chain'_cons.mp hc).1
      simp only [lastIsSpace, List.getLast?_cons_cons, List.getLast?_singleton,
        decide_eq_true_eq] at h
      simp only [List.dropLast_cons₂, List.dropLast_single, lastIsSpace,
        List.getLast?_singleton, decide_eq_false_iff_not]
      intro ha
      exact hab ⟨ha, h⟩
    | cons c rest1 =>
      have ih := lastIsSpace_dropLast_of_chain (b :: c :: rest1) (List.chain'_cons.mp hc).2
        (by simpa only [lastIsSpace, List.getLast?_cons_cons] using h)
      simp only [List.dropLast_cons₂] at ih ⊢
      simpa only [lastIsSpace, List.getLast?_cons_cons] using ih

theorem headIsSpace_trimFront {l : List Tok} (h : List.Chain' pairNS l) :
    headIsSpace (trimFront l) = false := by
  cases l with
  | nil => rfl
  | cons a rest =>
    by_cases ha : a.kind = TokKind.Space
    · simpa [trimFront, ha] using headIsSpace_of_chain_cons h ha
    · simp [trimFront, ha, headIsSpace]

theorem chain_trimFront {l : List Tok} (h : List.Chain' pairNS l) :
    List.Chain' pairNS (trimFront l) := by
  cases l with
  | nil => exact h
  | cons a rest =>
    by_cases ha : a.kind = TokKind.Space
    · simpa [trimFront, ha] using h.tail
    · simpa [trimFront, ha] using h

theorem lastIsSpace_trimBack {l : List Tok} (h : List.Chain' pairNS l) :
    lastIsSpace (trimBack l) = false := by
  by_cases hl : lastIsSpace l = true
  · have hd := lastIsSpace_dropLast_of_chain l h hl
    simp only [lastIsSpace] at hl
    rcases hgl : l.getLast? with _ | t
    · rw [hgl] at hl; simp at hl
    · rw [hgl] at hl
      simp only [decide_eq_true_eq] at hl
      simpa [trimBack, hgl, hl] using hd
  · simp only [Bool.not_eq_true] at hl
    have : trimBack l = l := by
      simp only [lastIsSpace] at hl
      rcases hgl : l.getLast? with _ | t
      · simp [trimBack, hgl]
      · rw [hgl] at hl
        simp only [decide_eq_false_iff_not] at hl
        simp [trimBack, hgl, hl]
    rw [this]
    simpa [lastIsSpace] using hl

theorem trimBack_eq_of_not_lastSpace {l : List Tok} (h : lastIsSpace l = false) :
    trimBack l = l := by
  simp only [lastIsSpace] at h
  rcases hgl : l.getLast? with _ | t
  · simp [trimBack, hgl]
  · rw [hgl] at h
    simp only [decide_eq_false_iff_not] at h
    simp [trimBack, hgl, h]

theorem trimFront_eq_of_not_headSpace {l : List Tok} (h : headIsSpace l = false) :
    trimFront l = l := by
  cases l with
  | nil => rfl
  | cons a rest =>
    simp only [headIsSpace, List.head?_cons, decide_eq_false_iff_not] at h
    simp [trimFront, h]

theorem headIsSpace_dropLast {l : List Tok} (h : headIsSpace l = false) :
    headIsSpace l.dropLast = false := by
  cases l with
  | nil => rfl
  | cons a rest =>
    cases rest with
    | nil => rfl
    | cons b r =>
      simp only [List.dropLast_cons₂]
      simpa [headIsSpace] using h

theorem headIsSpace_trimBack {l : List Tok} (h : headIsSpace l = false) :
    headIsSpace (trimBack l) = false := by
  rcases hgl : l.getLast? with _ | t
  · simpa [trimBack, hgl] using h
  · by_cases ht : t.kind = TokKind.Space
    · simpa [trimBack, hgl, ht] using headIsSpace_dropLast h
    · simpa [trimBack, hgl, ht] using h

theorem trim_whitespace_no_edge_spaces {l : List Tok} (h : List.Chain' pairNS l) :
    headIsSpace (trim_whitespace l) = false ∧ lastIsSpace (trim_whitespace l) = false := by
  refine ⟨?_, ?_⟩
  · exact headIsSpace_trimBack (headIsSpace_trimFront h)
  · exact lastIsSpace_trimBack (chain_trimFront h)

theorem remove_leading_eos_headIsSpace (l : List Tok) :
    headIsSpace (remove_leading_eos l) = headIsSpace l := by
  cases l with
  | nil => rfl
  | cons t rest =>
    by_cases ht : t.kind = TokKind.Punct <;> simp [remove_leading_eos, ht, headIsSpace]

theorem remove_leading_eos_lastIsSpace (l : List Tok) :
    lastIsSpace (remove_leading_eos l) = lastIsSpace l := by
  cases l with
  | nil => rfl
  | cons t rest =>
    cases rest with
    | nil =>
      by_cases ht : t.kind = TokKind.Punct <;> simp [remove_leading_eos, ht, lastIsSpace]
    | cons b r =>
      by_cases ht : t.kind = TokKind.Punct <;>
        simp [remove_leading_eos, ht, lastIsSpace, List.getLast?_cons_cons]

theorem remove_leading_eos_idem (l : List Tok) :
    remove_leading_eos (remove_leading_eos l) = remove_leading_eos l := by
  cases l with
  | nil => rfl
  | cons t rest =>
    by_cases ht : t.kind = TokKind.Punct <;> simp [remove_leading_eos, ht]

theorem TextElement.eq_of_fields {A : Type} {x y : TextElement A}
    (h1 : x.attributes = y.attributes) (h2 : x.tokens = y.tokens)
    (h3 : x.break_info = y.break_info) (h4 : x.at_scene_end = y.at_scene_end) : x = y := by
  cases x; cases y
  cases h1; cases h2; cases h3; cases h4
  rfl

theorem breakInfoOfList_absorb (b : List BreakPoint) (y : BreakType) :
    breakInfoOfList b (breakInfoOfList b y) = breakInfoOfList b y := by
  rcases b with _ | ⟨bp, _ | ⟨bp2, rest⟩⟩ <;> rfl

theorem finalizeD_tokens_eq (e : TextElement DAttrs) :
    (finalizeD e).tokens =
      (if 0 < e.attributes.indent then
        spaceTokOfWidth e.attributes.indent :: remove_leading_eos (trim_whitespace e.tokens)
      else
        remove_leading_eos (trim_whitespace e.tokens)) := rfl

theorem finalizeD_attributes_eq (e : TextElement DAttrs) :
    (finalizeD e).attributes = e.attributes := rfl

theorem finalizeD_at_scene_end_eq (e : TextElement DAttrs) :
    (finalizeD e).at_scene_end = e.at_scene_end := rfl

theorem finalizeD_break_info_eq (e : TextElement DAttrs) :
    (finalizeD e).break_info =
      breakInfoOfList
        (find_break_points (finalizeD e).tokens
          (e.attributes.right_margin - e.attributes.left_margin + 1))
        e.break_info := rfl

/-- C6 (amended): finalization removes at most one leading and one
trailing Space token, so on token lists with no two adjacent Space
tokens (a single tokenizer run never produces two, inlined `em`
children can), the trimmed list has no leading or trailing Space; the
finalized token list then begins with a Space exactly when the element
has a positive `indent` (the prepended indent Space), and running the
finalization steps a second time leaves the element unchanged. -/
theorem finalize_trim_spaces_idempotent (e : TextElement DAttrs)
    (h : List.Chain' pairNS e.tokens) :
    headIsSpace (remove_leading_eos (trim_whitespace e.tokens)) = false ∧
    lastIsSpace (remove_leading_eos (trim_whitespace e.tokens)) = false ∧
    (e.attributes.indent = 0 → headIsSpace (finalizeD e).tokens = false) ∧
    (0 < e.attributes.indent → headIsSpace (finalizeD e).tokens = true) ∧
    finalizeD (finalizeD e) = finalizeD e := by
  obtain ⟨hh0, hl0⟩ := trim_whitespace_no_edge_spaces h
  have hh : headIsSpace (remove_leading_eos (trim_whitespace e.tokens)) = false := by
    rw [remove_leading_eos_headIsSpace]; exact hh0
  have hl : lastIsSpace (remove_leading_eos (trim_whitespace e.tokens)) = false := by
    rw [remove_leading_eos_lastIsSpace]; exact hl0
  have htoks : trim_whitespace (finalizeD e).tokens
      = remove_leading_eos (trim_whitespace e.tokens) := by
    rw [finalizeD_tokens_eq]
    by_cases hi : 0 < e.attributes.indent
    · rw [if_pos hi]
      show trimBack (trimFront _) = _
      rw [show trimFront (spaceTokOfWidth e.attributes.indent
            :: remove_leading_eos (trim_whitespace e.tokens))
          = remove_leading_eos (trim_whitespace e.tokens) from by
        simp [trimFront, spaceTokOfWidth]]
      exact trimBack_eq_of_not_lastSpace hl
    · rw [if_neg hi]
      show trimBack (trimFront _) = _
      rw [trimFront_eq_of_not_headSpace hh]
      exact trimBack_eq_of_not_lastSpace hl
  have htoks2 : (finalizeD (finalizeD e)).tokens = (finalizeD e).tokens := by
    rw [finalizeD_tokens_eq (finalizeD e), finalizeD_attributes_eq, htoks,
      remove_leading_eos_idem, finalizeD_tokens_eq e]
  refine ⟨hh, hl, ?_, ?_, ?_⟩
  · intro hi
    rw [finalizeD_tokens_eq, hi]
    simpa using hh
  · intro hi
    rw [finalizeD_tokens_eq, if_pos hi]
    simp [headIsSpace, spaceTokOfWidth]
  · refine TextElement.eq_of_fields (finalizeD_attributes_eq _) htoks2 ?_
      (finalizeD_at_scene_end_eq _)
    rw [finalizeD_break_info_eq (finalizeD e), finalizeD_attributes_eq, htoks2,
      finalizeD_break_info_eq e]
    exact breakInfoOfList_absorb _ _

/-- C6 witness: the amended statement at a concrete dialogue `. hi `
(leading full stop, trailing space) with no adjacent Space tokens. -/
theorem finalize_trim_spaces_idempotent_witness :
    List.Chain' pairNS c7elem.tokens ∧
    (headIsSpace (remove_leading_eos (trim_whitespace c7elem.tokens)) = false ∧
      lastIsSpace (remove_leading_eos (trim_whitespace c7elem.tokens)) = false ∧
      (c7elem.attributes.indent = 0 → headIsSpace (finalizeD c7elem).tokens = false) ∧
      (0 < c7elem.attributes.indent → headIsSpace (finalizeD c7elem).tokens = true) ∧
      finalizeD (finalizeD c7elem) = finalizeD c7elem) :=
  ⟨by simp [c7elem, pairNS, dotTok, wordTok],
   finalize_trim_spaces_idempotent c7elem (by simp [c7elem, pairNS, dotTok, wordTok])⟩

/-- C6 counterexample: on the dialogue whose tokens are two Spaces then
a word (reachable by inlining an `em` child), finalization leaves a
leading Space token and running it twice changes the element again —
the claim as stated is false. -/
theorem finalize_trim_counterexample :
    headIsSpace (finalizeD c6elem).tokens = true ∧
    finalizeD (finalizeD c6elem) ≠ finalizeD c6elem := by
  decide

theorem lineLen_append_singleton (acc : List Tok) (t : Tok) :
    lineLen (acc ++ [t]) = lineLen acc + t.length := by
  simp [lineLen]

theorem dropLast_cons_of_ne_nil {α : Type} (a : α) {l : List α} (h : l ≠ []) :
    (a :: l).dropLast = a :: l.dropLast := by
  cases l with
  | nil => exact absurd rfl h
  | cons b r => rfl

theorem getLastD_congr {α : Type} (c d : α) {l : List α} (h : l ≠ []) :
    l.getLastD c = l.getLastD d := by
  obtain ⟨a, ha⟩ := getLast?_exists_of_ne_nil h
  simp [List.getLastD_eq_getLast?, ha]

theorem getLastD_cons_of_ne_nil {α : Type} (a d : α) {l : List α} (h : l ≠ []) :
    (a :: l).getLastD d = l.getLastD d := by
  cases l with
  | nil => exact absurd rfl h
  | cons b r =>
    simp [List.getLastD_eq_getLast?, List.getLast?_cons_cons]

theorem getLastD_append_of_ne_nil {α : Type} (d : α) {l1 l2 : List α} (h : l2 ≠ []) :
    (l1 ++ l2).getLastD d = l2.getLastD d := by
  induction l1 with
  | nil => rfl
  | cons a l1 ih =>
    have hne : l1 ++ l2 ≠ [] := by
      intro hc
      exact h (List.append_eq_nil.mp hc).2
    rw [List.cons_append, getLastD_cons_of_ne_nil a d hne, ih]

theorem fillGo_append (w : Nat) :
    ∀ (ts acc : List Tok) (d : List (List Tok)),
    fillGo w ts acc d = d ++ fillGo w ts acc [] := by
  intro ts
  induction ts with
  | nil => intro acc d; simp [fillGo]
  | cons t ts ih =>
    intro acc d
    simp only [fillGo]
    split_ifs with h1 h2 h3
    · rw [ih [] (d ++ [acc]), ih [] ([] ++ [acc])]
      simp
    · exact ih _ _
    · rw [ih [] (d ++ [acc]), ih [] ([] ++ [acc])]
      simp
    · rw [ih [] (d ++ [acc ++ [t]]), ih [] ([] ++ [acc ++ [t]])]
      simp
    · exact ih _ _

theorem fillGo_ne_nil (w : Nat) :
    ∀ (ts acc : List Tok) (d : List (List Tok)), fillGo w ts acc d ≠ [] := by
  intro ts
  induction ts with
  | nil => intro acc d; simp [fillGo]
  | cons t ts ih =>
    intro acc d
    simp only [fillGo]
    split_ifs <;> exact ih _ _

theorem fbpGo_ne_nil (w : Nat) :
    ∀ (ts : List Tok) (i n x : Nat) (e1 : Bool), fbpGo w ts i n x e1 ≠ [] := by
  intro ts
  induction ts with
  | nil => intro i n x e1; simp [fbpGo]
  | cons t ts ih =>
    intro i n x e1
    simp only [fbpGo]
    split_ifs <;> first | exact List.cons_ne_nil _ _ | exact ih _ _ _ _

theorem fbpGo_mem_bounds (w : Nat) :
    ∀ (ts : List Tok) (i n x : Nat) (e1 : Bool),
    ∀ p ∈ fbpGo w ts i n x e1, i ≤ p.token_index ∧ n ≤ p.line_no := by
  intro ts
  induction ts with
  | nil =>
    intro i n x e1 p hp
    simp only [fbpGo, List.mem_singleton] at hp
    subst hp
    dsimp only
    refine ⟨le_refl _, ?_⟩
    split <;> omega
  | cons t ts ih =>
    intro i n x e1 p hp
    simp only [fbpGo] at hp
    split_ifs at hp <;>
      first
      | (rcases List.mem_cons.mp hp with hp1 | hp1
         · subst hp1
           dsimp only
           exact ⟨by omega, by omega⟩
         · have hb := ih _ _ _ _ p hp1
           exact ⟨by omega, by omega⟩)
      | (have hb := ih _ _ _ _ p hp
         exact ⟨by omega, by omega⟩)

theorem fbpGo_pairwise (w : Nat) :
    ∀ (ts : List Tok) (i n x : Nat) (e1 : Bool),
    List.Pairwise (fun a b => a.token_index ≤ b.token_index ∧ a.line_no ≤ b.line_no)
      (fbpGo w ts i n x e1) := by
  intro ts
  induction ts with
  | nil => intro i n x e1; simp [fbpGo]
  | cons t ts ih =>
    intro i n x e1
    simp only [fbpGo]
    split_ifs <;>
      first
      | exact ih _ _ _ _
      | (refine List.Pairwise.cons ?_ (ih _ _ _ _)
         intro p hp
         have hb := fbpGo_mem_bounds w ts _ _ _ _ p hp
         dsimp only
         exact ⟨by omega, by omega⟩)

theorem fbpGo_dropLast_mem (w : Nat) :
    ∀ (ts : List Tok) (i n x : Nat) (e1 : Bool),
    ∀ p ∈ (fbpGo w ts i n x e1).dropLast, i + 1 ≤ p.token_index := by
  intro ts
  induction ts with
  | nil =>
    intro i n x e1 p hp
    simp [fbpGo] at hp
  | cons t ts ih =>
    intro i n x e1 p hp
    simp only [fbpGo] at hp
    split_ifs at hp <;>
      first
      | (rw [dropLast_cons_of_ne_nil _ (fbpGo_ne_nil w ts _ _ _ _)] at hp
         rcases List.mem_cons.mp hp with hp1 | hp1
         · subst hp1
           dsimp only
           omega
         · have hb := ih _ _ _ _ p hp1
           omega)
      | (have hb := ih _ _ _ _ p hp
         omega)

theorem fbpGo_dropLast_strict (w : Nat) :
    ∀ (ts : List Tok) (i n x : Nat) (e1 : Bool),
    List.Pairwise (· < ·) ((fbpGo w ts i n x e1).dropLast.map BreakPoint.token_index) := by
  intro ts
  induction ts with
  | nil => intro i n x e1; simp [fbpGo]
  | cons t ts ih =>
    intro i n x e1
    simp only [fbpGo]
    split_ifs <;>
      first
      | exact ih _ _ _ _
      | (rw [dropLast_cons_of_ne_nil _ (fbpGo_ne_nil w ts _ _ _ _)]
         rw [List.map_cons]
         refine List.Pairwise.cons ?_ (ih _ _ _ _)
         intro q hq
         rcases List.mem_map.mp hq with ⟨p, hp, hpq⟩
         have hb := fbpGo_dropLast_mem w ts _ _ _ _ p hp
         subst hpq
         dsimp only
         omega)

theorem fbpGo_getLastD_token_index (w : Nat) :
    ∀ (ts : List Tok) (i n x : Nat) (e1 : Bool),
    ((fbpGo w ts i n x e1).getLastD bp0).token_index = i + ts.length := by
  intro ts
  induction ts with
  | nil => intro i n x e1; rfl
  | cons t ts ih =>
    intro i n x e1
    simp only [fbpGo]
    split_ifs <;>
      first
      | (rw [getLastD_cons_of_ne_nil _ _ (fbpGo_ne_nil w ts _ _ _ _)]
         rw [ih]
         simp only [List.length_cons]
         omega)
      | (rw [ih]
         simp only [List.length_cons]
         omega)

theorem fbp_fill_count (w : Nat) :
    ∀ (ts : List Tok) (i n x : Nat) (e1 : Bool) (acc : List Tok),
    lineLen acc = x →
    ((fbpGo w ts i n x e1).getLastD bp0).line_no + 1
      = n + (fillGo w ts acc []).length
        + (if w ≤ lineLen ((fillGo w ts acc []).getLastD []) then 1 else 0) := by
  intro ts
  induction ts with
  | nil =>
    intro i n x e1 acc hacc
    have h1 : (fbpGo w [] i n x e1).getLastD bp0
        = ⟨i, false, if w ≤ x then n + 1 else n⟩ := rfl
    have h2 : fillGo w [] acc [] = [acc] := rfl
    rw [h1, h2]
    dsimp only
    rw [show ([acc] : List (List Tok)).getLastD [] = acc from rfl, hacc]
    simp only [List.length_singleton]
    split_ifs <;> omega
  | cons t ts ih =>
    intro i n x e1 acc hacc
    simp only [fbpGo, fillGo, hacc]
    by_cases hm : t.frm.mlb = true
    · rw [if_pos hm, if_pos hm]
      rw [getLastD_cons_of_ne_nil _ _ (fbpGo_ne_nil w ts (i + 1) (n + 1) 0 false)]
      rw [fillGo_append w ts [] ([] ++ [acc]), List.nil_append]
      rw [getLastD_append_of_ne_nil _ (fillGo_ne_nil w ts [] []),
        List.length_append, List.length_singleton, ← Nat.add_assoc]
      exact ih (i + 1) (n + 1) 0 false [] rfl
    · rw [if_neg hm, if_neg hm]
      by_cases hd : t.frm.dlb = true
      · have heos : ¬((t.frm.eos && !t.frm.dlb) = true) := by simp [hd]
        rw [if_neg heos, if_pos hd, if_pos hd]
        by_cases hfit : next_word_fits w x ts = true
        · rw [if_pos hfit, if_pos hfit]
          by_cases hp :
              ((if t.kind = TokKind.Punct then false else e1) || t.frm.eos) = true
          · rw [if_pos hp]
            rw [getLastD_cons_of_ne_nil _ _ (fbpGo_ne_nil w ts _ _ _ _)]
            exact ih (i + 1) n (x + t.length) _ (acc ++ [t])
              (by rw [lineLen_append_singleton, hacc])
          · rw [if_neg hp]
            exact ih (i + 1) n (x + t.length) _ (acc ++ [t])
              (by rw [lineLen_append_singleton, hacc])
        · rw [if_neg hfit, if_neg hfit]
          by_cases hdob : t.frm.dob = true
          · rw [if_pos hdob]
            rw [fillGo_append w ts [] ([] ++ [acc]), List.nil_append]
            rw [getLastD_append_of_ne_nil _ (fillGo_ne_nil w ts [] []),
              List.length_append, List.length_singleton, ← Nat.add_assoc]
            by_cases hp :
                ((if t.kind = TokKind.Punct then false else e1) || t.frm.eos) = true
            · rw [if_pos hp]
              rw [getLastD_cons_of_ne_nil _ _ (fbpGo_ne_nil w ts _ _ _ _)]
              exact ih (i + 1) (n + 1) 0 _ [] rfl
            · rw [if_neg hp]
              exact ih (i + 1) (n + 1) 0 _ [] rfl
          · rw [if_neg hdob]
            rw [fillGo_append w ts [] ([] ++ [acc ++ [t]]), List.nil_append]
            rw [getLastD_append_of_ne_nil _ (fillGo_ne_nil w ts [] []),
              List.length_append, List.length_singleton, ← Nat.add_assoc]
            by_cases hp :
                ((if t.kind = TokKind.Punct then false else e1) || t.frm.eos) = true
            · rw [if_pos hp]
              rw [getLastD_cons_of_ne_nil _ _ (fbpGo_ne_nil w ts _ _ _ _)]
              exact ih (i + 1) (n + 1) 0 _ [] rfl
            · rw [if_neg hp]
              exact ih (i + 1) (n + 1) 0 _ [] rfl
      · by_cases he : (t.frm.eos && !t.frm.dlb) = true
        · rw [if_pos he, if_neg hd]
          exact ih (i + 1) n (x + t.length) true (acc ++ [t])
            (by rw [lineLen_append_singleton, hacc])
        · rw [if_neg he, if_neg hd, if_neg hd]
          exact ih (i + 1) n (x + t.length) _ (acc ++ [t])
            (by rw [lineLen_append_singleton, hacc])

/-- C4 (amended): for every D or P element whose finalization yields
`break_info = List(bps)`: `bps` is the break-point list computed by
`find_break_points` at the element width; its entries are non-decreasing
in both `token_index` and `line_no`; all entries except the final
sentinel are strictly ascending in `token_index` (the sentinel may
repeat the token index of a break at the very end of the token list);
the final entry's `token_index` equals the element's token count; and
the final entry's `line_no` equals the greedy-fill line count plus one
exactly when the width of the last filled line reaches the element
width (the source bumps the line counter when `x >= line_length` after
the loop). -/
theorem break_point_list_invariants (e : TextElement DAttrs) (bps : List BreakPoint)
    (hl : (finalizeD e).break_info = BreakType.List bps) :
    bps = find_break_points (finalizeD e).tokens
        (e.attributes.right_margin - e.attributes.left_margin + 1) ∧
    List.Pairwise (fun a b => a.token_index ≤ b.token_index ∧ a.line_no ≤ b.line_no) bps ∧
    List.Pairwise (· < ·) (bps.dropLast.map BreakPoint.token_index) ∧
    (bps.getLastD bp0).token_index = (finalizeD e).tokens.length ∧
    (bps.getLastD bp0).line_no
      = (fillRuns (finalizeD e).tokens
          (e.attributes.right_margin - e.attributes.left_margin + 1)).length
        + (if (e.attributes.right_margin - e.attributes.left_margin + 1)
              ≤ lineLen ((fillRuns (finalizeD e).tokens
                  (e.attributes.right_margin - e.attributes.left_margin + 1)).getLastD [])
           then 1 else 0) := by
  have hbi := finalizeD_break_info_eq e
  rw [hl] at hbi
  have hb : bps = find_break_points (finalizeD e).tokens
      (e.attributes.right_margin - e.attributes.left_margin + 1) := by
    rcases hcase : find_break_points (finalizeD e).tokens
        (e.attributes.right_margin - e.attributes.left_margin + 1)
      with _ | ⟨bp1, _ | ⟨bp2, rest⟩⟩
    · exact absurd hcase (fbpGo_ne_nil _ _ 0 1 0 false)
    · rw [hcase] at hbi
      simp [breakInfoOfList] at hbi
    · rw [hcase] at hbi
      simp only [breakInfoOfList, BreakType.List.injEq] at hbi
      exact hbi
  subst hb
  refine ⟨rfl, ?_, ?_, ?_, ?_⟩
  · exact fbpGo_pairwise _ _ 0 1 0 false
  · exact fbpGo_dropLast_strict _ _ 0 1 0 false
  · rw [show find_break_points (finalizeD e).tokens
        (e.attributes.right_margin - e.attributes.left_margin + 1)
        = fbpGo (e.attributes.right_margin - e.attributes.left_margin + 1)
            (finalizeD e).tokens 0 1 0 false from rfl]
    rw [fbpGo_getLastD_token_index]
    omega
  · have h5 := fbp_fill_count (e.attributes.right_margin - e.attributes.left_margin + 1)
      (finalizeD e).tokens 0 1 0 false [] rfl
    rw [show (fillRuns (finalizeD e).tokens
          (e.attributes.right_margin - e.attributes.left_margin + 1))
        = fillGo (e.attributes.right_margin - e.attributes.left_margin + 1)
            (finalizeD e).tokens [] [] from rfl]
    rw [show find_break_points (finalizeD e).tokens
        (e.attributes.right_margin - e.attributes.left_margin + 1)
        = fbpGo (e.attributes.right_margin - e.attributes.left_margin + 1)
            (finalizeD e).tokens 0 1 0 false from rfl]
    generalize hB : (if (e.attributes.right_margin - e.attributes.left_margin + 1)
        ≤ lineLen ((fillGo (e.attributes.right_margin - e.attributes.left_margin + 1)
            (finalizeD e).tokens [] []).getLastD []) then 1 else 0) = B at h5 ⊢
    omega

/-- C4 witness: the amended invariants at the concrete dialogue
`hi<br/>`, whose break list is `[(2, d, 1), (2, s, 2)]`. -/
theorem break_point_list_invariants_witness :
    ((finalizeD c4elemA).break_info
        = BreakType.List [⟨2, true, 1⟩, ⟨2, false, 2⟩]) ∧
    ([(⟨2, true, 1⟩ : BreakPoint), ⟨2, false, 2⟩]
        = find_break_points (finalizeD c4elemA).tokens
            (c4elemA.attributes.right_margin - c4elemA.attributes.left_margin + 1) ∧
      List.Pairwise (fun a b => a.token_index ≤ b.token_index ∧ a.line_no ≤ b.line_no)
        [(⟨2, true, 1⟩ : BreakPoint), ⟨2, false, 2⟩] ∧
      List.Pairwise (· < ·)
        (([(⟨2, true, 1⟩ : BreakPoint), ⟨2, false, 2⟩]).dropLast.map BreakPoint.token_index) ∧
      (([(⟨2, true, 1⟩ : BreakPoint), ⟨2, false, 2⟩]).getLastD bp0).token_index
        = (finalizeD c4elemA).tokens.length ∧
      (([(⟨2, true, 1⟩ : BreakPoint), ⟨2, false, 2⟩]).getLastD bp0).line_no
        = (fillRuns (finalizeD c4elemA).tokens
            (c4elemA.attributes.right_margin - c4elemA.attributes.left_margin + 1)).length
          + (if (c4elemA.attributes.right_margin - c4elemA.attributes.left_margin + 1)
                ≤ lineLen ((fillRuns (finalizeD c4elemA).tokens
                    (c4elemA.attributes.right_margin - c4elemA.attributes.left_margin + 1)).getLastD [])
             then 1 else 0)) :=
  ⟨by decide, break_point_list_invariants c4elemA _ (by decide)⟩

/-- C4 counterexample: the claim as stated is false.  On `hi<br/>` the
computed break list `[(2, _, 1), (2, _, 2)]` is not strictly ascending
in `token_index` (the sentinel repeats index 2); and on a dialogue
whose single filled line exactly reaches the width 34, the final
entry's `line_no` is 2 while the greedy-fill line count is 1. -/
theorem break_point_list_counterexample :
    ((finalizeD c4elemA).break_info = BreakType.List [⟨2, true, 1⟩, ⟨2, false, 2⟩] ∧
      ¬ List.Pairwise (fun a b : BreakPoint => a.token_index < b.token_index)
          [⟨2, true, 1⟩, ⟨2, false, 2⟩]) ∧
    ((finalizeD c4elemB).break_info = BreakType.List [⟨3, true, 1⟩, ⟨4, false, 2⟩] ∧
      (fillRuns (finalizeD c4elemB).tokens 34).length = 1 ∧
      (([(⟨3, true, 1⟩ : BreakPoint), ⟨4, false, 2⟩]).getLastD bp0).line_no = 2) := by
  decide

theorem rpfsGo_length : ∀ l : List Tok, (rpfsGo l).length = l.length := by
  intro l
  induction l with
  | nil => rfl
  | cons t rest ih =>
    simp only [rpfsGo]
    rcases hk : t.kind <;> simp [ih]

theorem rpfsGo_closes (cl : List Tok) (hcl : ∀ c ∈ cl, c.kind = TokKind.Close) :
    ∀ rest : List Tok, rpfsGo (cl ++ rest) = cl ++ rpfsGo rest := by
  induction cl with
  | nil => intro rest; rfl
  | cons c cl ih =>
    intro rest
    have hc : c.kind = TokKind.Close := hcl c (List.mem_cons_self _ _)
    have hcl2 : ∀ x ∈ cl, x.kind = TokKind.Close := fun x hx => hcl x (List.mem_cons_of_mem _ hx)
    simp only [List.cons_append, rpfsGo, hc]
    exact congrArg (fun x => c :: x) (ih hcl2 rest)

theorem rpfsGo_punct_cons (p : Tok) (hp : p.kind = TokKind.Punct) (l : List Tok) :
    rpfsGo (p :: l)
      = { p with frm := { p.frm with fs := false, eos := false } } :: rpfsGo l := by
  simp only [rpfsGo, hp]

/-- C8: a backslash followed by whitespace emits exactly one Space
token whose literal is a single space carrying DLB and DOB, and strips
the FS and EOS flags from the most recent preceding Punct token,
skipping any intervening Close tokens (the Close tokens themselves are
unchanged).  Concretely, tokenizing `EXT.\ LOBBY` yields the word
`EXT`, the full stop with its sentence flags cleared, exactly one
single-space Space token with DLB and DOB, and the word `LOBBY`. -/
theorem escape_space_strips_preceding_punct :
    (∀ (st : PCore) (pre : List Tok) (p : Tok) (closes : List Tok),
      p.kind = TokKind.Punct →
      (∀ c ∈ closes, c.kind = TokKind.Close) →
      st.tokens = pre ++ p :: closes →
      ∃ pre1 : List Tok, pre1.length = pre.length ∧
        escapeToScan st " " = SM.Scan { st with
          tokens := pre1 ++ ({ p with frm := { p.frm with fs := false, eos := false } } :: closes)
            ++ [{ kind := TokKind.Space, text := " ", dpy := st.dpy,
                  frm := { st.frm with dlb := true, dob := true } }],
          frm := {} }) ∧
    tokenize "EXT.\\ LOBBY".toList [] {} =
      [{ kind := TokKind.Word, text := "EXT" },
       { kind := TokKind.Punct, text := "." },
       { kind := TokKind.Space, text := " ", frm := { dlb := true, dob := true } },
       { kind := TokKind.Word, text := "LOBBY" }] := by
  constructor
  · intro st pre p closes hp hcl htoks
    refine ⟨(rpfsGo pre.reverse).reverse, by simp [rpfsGo_length], ?_⟩
    have hT : remove_preceding_full_stop_flag st.tokens
        = (rpfsGo pre.reverse).reverse
          ++ ({ p with frm := { p.frm with fs := false, eos := false } } :: closes) := by
      rw [htoks, remove_preceding_full_stop_flag]
      have hrev : (pre ++ p :: closes).reverse = closes.reverse ++ (p :: pre.reverse) := by
        simp
      rw [hrev]
      rw [rpfsGo_closes closes.reverse (fun c hc => hcl c (List.mem_reverse.mp hc))]
      rw [rpfsGo_punct_cons p hp]
      simp
    show escapeToScan st " " = _
    rw [escapeToScan]
    rw [if_neg (by decide), if_pos rfl]
    rw [hT]
  · decide

/-- C8 witness: the general statement at the concrete core state whose
accumulated tokens are a single full-stop Punct. -/
theorem escape_space_strips_preceding_punct_witness :
    (dotTok.kind = TokKind.Punct ∧ (∀ c ∈ ([] : List Tok), c.kind = TokKind.Close) ∧
      c8core.tokens = [] ++ dotTok :: []) ∧
    (∃ pre1 : List Tok, pre1.length = ([] : List Tok).length ∧
      escapeToScan c8core " " = SM.Scan { c8core with
        tokens := pre1
          ++ ({ dotTok with frm := { dotTok.frm with fs := false, eos := false } }
              :: ([] : List Tok))
          ++ [{ kind := TokKind.Space, text := " ", dpy := c8core.dpy,
                frm := { c8core.frm with dlb := true, dob := true } }],
        frm := {} }) :=
  ⟨⟨by decide, by simp, rfl⟩,
   escape_space_strips_preceding_punct.1 c8core [] dotTok [] (by decide) (by simp) rfl⟩

theorem Formatter.modifyLast_concat (f : Formatter) (pgs : List Page) (pg : Page)
    (g : Page → Page) (h : f.body = pgs ++ [pg]) :
    f.modifyLast g = { f with body := pgs ++ [g pg] } := by
  simp [Formatter.modifyLast, h, List.getLast?_concat, List.dropLast_concat]

theorem Formatter.pushLine_concat (f : Formatter) (pgs : List Page) (pg : Page)
    (l : Option Line) (h : f.body = pgs ++ [pg]) :
    f.pushLine l = { f with body := pgs ++ [{ pg with lines := pg.lines ++ [l] }] } :=
  Formatter.modifyLast_concat f pgs pg _ h

theorem Formatter.lines_remaining_concat (f : Formatter) (pgs : List Page) (pg : Page)
    (h : f.body = pgs ++ [pg]) :
    f.lines_remaining = (pg.height : Int) - (pg.lines.length : Int) := by
  simp [Formatter.lines_remaining, h, List.getLast?_concat]

theorem Formatter.push_blank_lines_concat (f : Formatter) (pgs : List Page) (pg : Page)
    (n : Nat) (h : f.body = pgs ++ [pg]) :
    f.push_blank_lines n
      = { f with body := pgs ++ [{ pg with lines := pg.lines ++ blankChunk n pg }] } := by
  simp only [Formatter.push_blank_lines]
  rw [Formatter.lines_remaining_concat f pgs pg h]
  by_cases hm : 0 < min (n : Int) ((pg.height : Int) - (pg.lines.length : Int))
  · rw [if_pos hm, Formatter.modifyLast_concat f pgs pg _ h]
    have : blankChunk n pg
        = List.replicate (min (n : Int) ((pg.height : Int) - (pg.lines.length : Int))).toNat
            Option.none := by
      simp [blankChunk, hm]
    rw [this]
  · rw [if_neg hm]
    have : blankChunk n pg = [] := by
      simp only [blankChunk]
      rw [if_neg hm]
    rw [this, List.append_nil]
    show f = { f with body := pgs ++ [pg] }
    rw [← h]

theorem foldPush_concat (col : Nat) :
    ∀ (ls : List Line) (f : Formatter) (pgs : List Page) (pg : Page),
    f.body = pgs ++ [pg] →
    (ls.foldl (fun f l => f.pushLine (some { l with column := col })) f)
      = { f with body := pgs
          ++ [{ pg with lines := pg.lines ++ ls.map (fun l => some { l with column := col }) }] } := by
  intro ls
  induction ls with
  | nil =>
    intro f pgs pg h
    simp only [List.foldl_nil, List.map_nil, List.append_nil]
    show f = { f with body := pgs ++ [pg] }
    rw [← h]
  | cons l ls ih =>
    intro f pgs pg h
    simp only [List.foldl_cons]
    rw [Formatter.pushLine_concat f pgs pg _ h]
    rw [ih _ pgs _ rfl]
    simp [List.append_assoc]

theorem Formatter.pushFillLines_concat (f : Formatter) (pgs : List Page) (pg : Page)
    (toks : List Tok) (w col : Nat) (h : f.body = pgs ++ [pg]) :
    f.pushFillLines toks w col
      = { f with body := pgs ++ [{ pg with lines := pg.lines ++ (linebreak_fill toks w).map (fun l => some { l with column := col }) }] } :=
  foldPush_concat col (linebreak_fill toks w) f pgs pg h

theorem Formatter.push_continued_bottom_concat (f : Formatter) (pgs : List Page) (pg : Page)
    (h : f.body = pgs ++ [pg]) :
    f.push_continued_bottom
      = { f with body := pgs
          ++ [{ pg with lines := (pg.lines ++ blankChunk 1 pg) ++ [some contBottomLine] }] } := by
  show (f.push_blank_lines 1).pushLine (some contBottomLine) = _
  rw [Formatter.push_blank_lines_concat f pgs pg 1 h]
  rw [Formatter.pushLine_concat _ pgs _ _ rfl]

theorem Formatter.pushContdCue_concat (f : Formatter) (pgs : List Page) (pg : Page)
    (cue : Line) (h : f.body = pgs ++ [pg]) (hcue : f.cur_cue = some cue) :
    f.pushContdCue
      = { f with cur_cue := Option.none, body := pgs ++ [{ pg with lines := pg.lines ++ [some { cue with segments := cue.segments ++ [contdSeg] }] }] } := by
  simp only [Formatter.pushContdCue, hcue]
  rw [Formatter.pushLine_concat { f with cur_cue := Option.none } pgs pg
    (some { cue with segments := cue.segments ++ [contdSeg] }) h]

theorem Formatter.push_continued_top_fresh (f : Formatter) (pgs : List Page) (no : Int)
    (h : f.body = pgs ++ [(⟨no, TOP_LINE - BOTTOM_LINE + 1, [], []⟩ : Page)]) :
    f.push_continued_top
      = { f with body := pgs ++ [(⟨no, TOP_LINE - BOTTOM_LINE + 1,
          [some (contTopLine f.scene_page_no f.cur_scene f.numbering), Option.none],
          []⟩ : Page)] } := by
  show (f.pushLine (some (contTopLine f.scene_page_no f.cur_scene f.numbering))).push_blank_lines 1 = _
  rw [Formatter.pushLine_concat f pgs _ _ h]
  rw [Formatter.push_blank_lines_concat _ pgs _ 1 rfl]
  rfl

/-- C1 (amended): when the formatter splits a dialogue at a selected
break point while inside a scene (`scene_page_no` non-negative) with a
cached cue line: the page holding the prefix ends with the wrapped
prefix lines, the `(MORE)` line, at most one blank and the
`(CONTINUED)` line as the final entries of its body line list — the
`(CONTINUED)` marker is a body line, not an entry of the `Page::footer`
field, which is left unchanged — and the following page opens with the
`CONTINUED:` header (carrying the scene label per the numbering mode),
one blank, the cached cue suffixed ` (CONT'D)`, and then the remaining
dialogue lines.  The cue cache is cleared, the queued decision
consumed, and the intra-scene page counter advanced. -/
theorem dialogue_split_layout (f : Formatter) (e : TextElement DAttrs) (pb pa : Nat)
    (pgs : List Page) (pg : Page) (cue : Line) (bp : BreakPoint)
    (restSel : List (Option BreakType))
    (hbody : f.body = pgs ++ [pg])
    (hsel : f.break_selection = some (BreakType.Point bp) :: restSel)
    (hcue : f.cur_cue = some cue)
    (hscene : 0 ≤ f.scene_page_no) :
    f.formatD e pb pa =
      (let w := e.attributes.right_margin - e.attributes.left_margin + 1
       let col := e.attributes.left_margin
       let L1 := ((pg.lines ++ blankChunk (max pb pa) pg) ++ (linebreak_fill (e.tokens.take bp.token_index) w).map (fun l => some { l with column := col })) ++ [some moreLine]
       let P1 : Page := { pg with lines := (L1 ++ blankChunk 1 { pg with lines := L1 }) ++ [some contBottomLine] }
       let P2 : Page := ⟨f.next_page_no, TOP_LINE - BOTTOM_LINE + 1, ([some (contTopLine (f.scene_page_no + 1) f.cur_scene f.numbering), Option.none] ++ [some { cue with segments := cue.segments ++ [contdSeg] }]) ++ (linebreak_fill (e.tokens.drop bp.token_index) w).map (fun l => some { l with column := col }), []⟩
       { f with body := (pgs ++ [P1]) ++ [P2], break_selection := restSel, cur_cue := Option.none, next_page_no := f.next_page_no + 1, last_padding_after := 0, scene_page_no := f.scene_page_no + 1 }) := by
  have hs1 : (0 : Int) ≤ f.scene_page_no + 1 := by omega
  have h1 := Formatter.push_blank_lines_concat f pgs pg (max pb pa) hbody
  simp only [Formatter.formatD]
  rw [h1]
  dsimp only
  rw [hsel]
  dsimp only
  rw [Formatter.pushFillLines_concat _ pgs _ (e.tokens.take bp.token_index) _ _ rfl]
  rw [Formatter.pushLine_concat _ pgs _ (some moreLine) rfl]
  dsimp only
  simp only [if_pos hscene]
  rw [Formatter.push_continued_bottom_concat _ pgs _ rfl]
  dsimp only [Formatter.start_a_new_page]
  simp only [if_pos hscene]
  simp only [if_pos hs1]
  rw [Formatter.push_continued_top_fresh _ (pgs ++ [_]) _ rfl]
  rw [hcue]
  rw [Formatter.pushContdCue_concat _ (pgs ++ [_]) _ cue rfl rfl]
  rw [Formatter.pushFillLines_concat _ (pgs ++ [_]) _ (e.tokens.drop bp.token_index) _ _ rfl]

/-- Witness for C1: a concrete in-scene formatter holding one page, a
queued `Point` decision and a cached cue; the split produces exactly
two pages, both with empty footers, and advances the intra-scene page
counter. -/
theorem dialogue_split_layout_witness :
    (c1fmtr.formatD c1elem 0 0).body.map Page.footer = [[], []] ∧
    (c1fmtr.formatD c1elem 0 0).scene_page_no = 2 := by
  rw [dialogue_split_layout c1fmtr c1elem 0 0 [] ⟨1, 55, [], []⟩ ⟨CUE_BEGIN, [⟨"BOB", {}⟩]⟩ ⟨2, true, 1⟩ [] rfl rfl rfl (by decide)]
  exact ⟨rfl, rfl⟩

/-- Counterexample to C1 as stated: at the concrete split the prefix
page ends with the `(CONTINUED)` line as its last body line — `(MORE)`
is the line before the bottom block, not the last — and the page
footer field stays empty, so no `(CONTINUED)` entry lands in the
footer region. -/
theorem c1_counterexample :
    (c1fmtr.formatD c1elem 0 0).body.head?.map (fun p => (p.lines.getLast?, p.footer))
      = some (some (some contBottomLine), []) ∧ contBottomLine ≠ moreLine := by
  exact ⟨rfl, by decide⟩

end Batyr
